import Mathlib

/-!
Verification of the geometry/interaction core of the `react-native-ballast-charts`
library: gap detection, coordinate scaling (proportional and fixed-width gap
modes), hit-zone construction, binary search, interpolation, path generation,
dimension resolution and input validation.  Numbers are modelled as rationals;
each definition is a direct translation of the corresponding source function.
-/

namespace Charts

/-- Axis-aligned drawable rectangle `{x, y, width, height}`
(`Rectangle` in src/src/utils/types.ts). -/
structure Rect where
  x : ℚ
  y : ℚ
  width : ℚ
  height : ℚ
deriving Repr, DecidableEq

/-- A detected data gap (`Gap` in src/src/utils/types.ts). -/
structure Gap where
  startIndex : ℕ
  endIndex : ℕ
  startX : ℚ
  endX : ℚ
  duration : ℚ
deriving Repr, DecidableEq

/-- A scaled data point (`ScaledPoint` in src/src/utils/types.ts). -/
structure ScaledPoint where
  x : ℚ
  y : ℚ
  originalX : ℚ
  originalY : ℚ
  index : ℕ
deriving Repr, DecidableEq, Inhabited

/-- `PERFORMANCE_CONSTANTS.DEFAULT_GAP_THRESHOLD = 2.5` (src/src/utils/types.ts). -/
def DEFAULT_GAP_THRESHOLD : ℚ := 5 / 2

/-- `PERFORMANCE_CONSTANTS.MAX_DATA_POINTS = 50` (src/src/utils/types.ts). -/
def MAX_DATA_POINTS : ℕ := 50

/-! ## Gap detection (src/unnamed/part_002, `gapDetection.ts`) -/

/-- The consecutive deltas `timestamps[i] - timestamps[i-1]` collected by the
`intervals` loops in `detectGaps` / `calculateExpectedInterval`. -/
def intervalsOf (ts : List ℚ) : List ℚ :=
  List.zipWith (fun a b => b - a) ts ts.tail

/-- `calculateExpectedInterval`: sorts the consecutive deltas ascending and takes
the element at position `⌊length/2⌋` (the code's median). -/
def calculateExpectedInterval (ts : List ℚ) : ℚ :=
  if ts.length < 2 then 0
  else
    let intervals := intervalsOf ts
    let sorted := intervals.insertionSort (fun a b => a ≤ b)
    sorted.getD (intervals.length / 2) 0

/-- The gap-finding loop of `detectGaps`: walks consecutive pairs, the first pair
carrying start index `i`. -/
def detectGapsAux (threshold expected : ℚ) : ℕ → List ℚ → List Gap
  | _, [] => []
  | _, [_] => []
  | i, a :: b :: rest =>
    (if b - a > threshold * expected then [⟨i, i + 1, a, b, b - a⟩] else [])
      ++ detectGapsAux threshold expected (i + 1) (b :: rest)

/-- `detectGaps`: flags every consecutive pair whose delta exceeds
`threshold × expectedInterval`; fewer than two points yields no gaps. -/
def detectGaps (ts : List ℚ) (threshold : ℚ) : List Gap :=
  if ts.length < 2 then []
  else detectGapsAux threshold (calculateExpectedInterval ts) 0 ts

/-! ## Hit zones (src/src/hooks/useCoordinateLookup.ts) -/

/-- `calculateHitZones`: zone `i` starts at the midpoint with the previous scaled
x (or the rectangle's left edge for the first point) and ends at the midpoint
with the next scaled x (or the rectangle's right edge for the last point). -/
def calculateHitZones (xs : List ℚ) (chartArea : Rect) : List (ℚ × ℚ) :=
  (List.range xs.length).map fun i =>
    let currentX := xs.getD i 0
    let startX := if i = 0 then chartArea.x
                  else (xs.getD (i - 1) 0 + currentX) / 2
    let endX := if i = xs.length - 1 then chartArea.x + chartArea.width
                else (currentX + xs.getD (i + 1) 0) / 2
    (startX, endX)

/-- Zone `i` of `calculateHitZones` as a pair, defaulting to `(0, 0)` out of
range. -/
def hitZoneAt (xs : List ℚ) (chartArea : Rect) (i : ℕ) : ℚ × ℚ :=
  (calculateHitZones xs chartArea).getD i (0, 0)

theorem hitZoneAt_eq (xs : List ℚ) (chartArea : Rect) {i : ℕ} (h : i < xs.length) :
    hitZoneAt xs chartArea i =
      ((if i = 0 then chartArea.x else (xs.getD (i - 1) 0 + xs.getD i 0) / 2),
        (if i = xs.length - 1 then chartArea.x + chartArea.width
         else (xs.getD i 0 + xs.getD (i + 1) 0) / 2)) := by
  unfold hitZoneAt calculateHitZones
  simp [List.getD_eq_getElem?_getD, List.getElem?_map, List.getElem?_range h]

/-- C1: for a non-empty ascending list of scaled x positions lying inside the
rectangle, the hit zones partition the rectangle's width exactly: the first zone
starts at `rect.x`, the last zone ends at `rect.x + rect.width`, and each zone's
end coincides with the next zone's start. -/
theorem hitZones_partition (xs : List ℚ) (chartArea : Rect)
    (hne : xs ≠ [])
    (hasc : List.Sorted (· < ·) xs)
    (hin : ∀ v ∈ xs, chartArea.x ≤ v ∧ v ≤ chartArea.x + chartArea.width) :
    (hitZoneAt xs chartArea 0).1 = chartArea.x
      ∧ (hitZoneAt xs chartArea (xs.length - 1)).2 = chartArea.x + chartArea.width
      ∧ ∀ i, i + 1 < xs.length →
          (hitZoneAt xs chartArea i).2 = (hitZoneAt xs chartArea (i + 1)).1 := by
  have hn : 0 < xs.length := List.length_pos.mpr hne
  refine ⟨?_, ?_, ?_⟩
  · rw [hitZoneAt_eq xs chartArea hn]
    simp
  · rw [hitZoneAt_eq xs chartArea (Nat.sub_lt hn Nat.one_pos)]
    simp
  · intro i hi
    rw [hitZoneAt_eq xs chartArea (Nat.lt_of_succ_lt hi),
      hitZoneAt_eq xs chartArea hi]
    have h1 : i ≠ xs.length - 1 := by omega
    have h2 : i + 1 ≠ 0 := by omega
    simp [h1, h2]

/-- Witness for C1 on concrete data. -/
theorem hitZones_partition_witness :
    (hitZoneAt [1, 4, 9] ⟨0, 0, 10, 10⟩ 0).1 = 0
      ∧ (hitZoneAt [1, 4, 9] ⟨0, 0, 10, 10⟩ 2).2 = 10
      ∧ ∀ i, i + 1 < 3 →
          (hitZoneAt [1, 4, 9] ⟨0, 0, 10, 10⟩ i).2
            = (hitZoneAt [1, 4, 9] ⟨0, 0, 10, 10⟩ (i + 1)).1 := by
  have h := hitZones_partition [1, 4, 9] ⟨0, 0, 10, 10⟩ (by decide)
    (by decide) (by norm_num)
  simpa using h

/-! ## C6: correctness of `detectGaps` -/

theorem detectGapsAux_eq (threshold expected : ℚ) :
    ∀ (l : List ℚ) (i : ℕ),
      detectGapsAux threshold expected i l =
        (List.range (l.length - 1)).filterMap (fun j =>
          if l.getD (j + 1) 0 - l.getD j 0 > threshold * expected then
            some ⟨i + j, i + j + 1, l.getD j 0, l.getD (j + 1) 0,
                   l.getD (j + 1) 0 - l.getD j 0⟩
          else none)
  | [], _ => by simp [detectGapsAux]
  | [a], _ => by simp [detectGapsAux]
  | a :: b :: rest, i => by
    have ih := detectGapsAux_eq threshold expected (b :: rest) (i + 1)
    rw [detectGapsAux, ih]
    have hlen : (a :: b :: rest).length - 1 = ((b :: rest).length - 1) + 1 := by
      simp
    rw [hlen, List.range_succ_eq_map]
    rw [List.filterMap_cons, List.filterMap_map]
    by_cases hgap : b - a > threshold * expected
    · simp only [List.getD_cons_succ, List.getD_cons_zero, hgap, if_pos]
      refine congrArg₂ _ rfl ?_
      refine List.filterMap_congr ?_
      intro j _
      simp only [Function.comp_apply, List.getD_cons_succ]
      have harith : i + (j + 1) = i + 1 + j := by omega
      rw [harith]
    · simp only [List.getD_cons_succ, List.getD_cons_zero, hgap, if_neg,
        not_false_iff]
      simp only [List.nil_append]
      refine List.filterMap_congr ?_
      intro j _
      simp only [Function.comp_apply, List.getD_cons_succ]
      have harith : i + (j + 1) = i + 1 + j := by omega
      rw [harith]

/-- C6: for an ascending sequence of at least two x-values and a positive
threshold, `detectGaps` returns exactly one gap record
`{startIndex := j, endIndex := j + 1, startX, endX, duration}` for each
consecutive pair whose delta exceeds `threshold × median delta`, in index order,
and returns `[]` for sequences with fewer than two values. -/
theorem detectGaps_spec (ts : List ℚ) (threshold : ℚ)
    (h2 : 2 ≤ ts.length) (hasc : List.Sorted (· < ·) ts) (hpos : 0 < threshold) :
    detectGaps ts threshold =
      (List.range (ts.length - 1)).filterMap (fun j =>
        if ts.getD (j + 1) 0 - ts.getD j 0 >
            threshold * calculateExpectedInterval ts then
          some ⟨j, j + 1, ts.getD j 0, ts.getD (j + 1) 0,
                 ts.getD (j + 1) 0 - ts.getD j 0⟩
        else none)
      ∧ ∀ us : List ℚ, us.length < 2 → detectGaps us threshold = [] := by
  constructor
  · rw [detectGaps, if_neg (by omega)]
    have h := detectGapsAux_eq threshold (calculateExpectedInterval ts) ts 0
    rw [h]
    refine List.filterMap_congr ?_
    intro j _
    simp
  · intro us hus
    rw [detectGaps, if_pos hus]

/-- Witness for C6 on concrete data: `[0, 1, 2, 10, 11, 12]` with the default
threshold has median delta 1 and exactly one gap between indices 2 and 3. -/
theorem detectGaps_spec_witness :
    detectGaps [0, 1, 2, 10, 11, 12] (5 / 2) =
      (List.range 5).filterMap (fun j =>
        if ([0, 1, 2, 10, 11, 12] : List ℚ).getD (j + 1) 0
              - ([0, 1, 2, 10, 11, 12] : List ℚ).getD j 0 >
            (5 / 2) * calculateExpectedInterval [0, 1, 2, 10, 11, 12] then
          some ⟨j, j + 1, ([0, 1, 2, 10, 11, 12] : List ℚ).getD j 0,
                 ([0, 1, 2, 10, 11, 12] : List ℚ).getD (j + 1) 0,
                 ([0, 1, 2, 10, 11, 12] : List ℚ).getD (j + 1) 0
                   - ([0, 1, 2, 10, 11, 12] : List ℚ).getD j 0⟩
        else none) := by
  have h := detectGaps_spec [0, 1, 2, 10, 11, 12] (5 / 2)
    (by decide) (by decide) (by norm_num)
  simpa using h.1

/-! ## Data scaling (src/unnamed/part_003, `useDataScaling`) -/

/-- A raw axis range (`Range` in src/src/utils/types.ts). -/
structure Range where
  min : ℚ
  max : ℚ
deriving Repr, DecidableEq

/-- Gap configuration (`GapConfig`); absent `threshold`/`fixedWidth` model the
JS `undefined`. -/
structure GapConfig where
  enabled : Bool
  threshold : Option ℚ
  fixedWidthGaps : Bool
  fixedWidth : Option ℚ
deriving Repr, DecidableEq

/-- `gaps.threshold` with the `detectGaps` default parameter applied on
`undefined`. -/
def resolvedThreshold (cfg : GapConfig) : ℚ :=
  cfg.threshold.getD DEFAULT_GAP_THRESHOLD

/-- `gaps.fixedWidth || 40`: `undefined` and `0` are falsy in JS. -/
def resolvedFixedWidth (cfg : GapConfig) : ℚ :=
  match cfg.fixedWidth with
  | some w => if w = 0 then 40 else w
  | none => 40

/-- `Math.min(...l)` for the non-empty lists scaling is applied to. -/
def listMin : List ℚ → ℚ
  | [] => 0
  | a :: r => r.foldl min a

/-- `Math.max(...l)` for the non-empty lists scaling is applied to. -/
def listMax : List ℚ → ℚ
  | [] => 0
  | a :: r => r.foldl max a

/-- The x range `{min: Math.min(...xData), max: Math.max(...xData)}`. -/
def xRangeOf (xData : List ℚ) : Range := ⟨listMin xData, listMax xData⟩

/-- The y range: a supplied override is used as-is, otherwise the data range
expanded by 5 percent on each side. -/
def yRangeOf (yData : List ℚ) (override : Option Range) : Range :=
  match override with
  | some r => r
  | none =>
    let mn := listMin yData
    let mx := listMax yData
    let yPadding := (mx - mn) * (1 / 20)
    ⟨mn - yPadding, mx + yPadding⟩

/-- Standard linear `scaleX` (the non-gap branch of `createScalingFunctions`). -/
def stdScaleX (xRange : Range) (chartArea : Rect) (value : ℚ) : ℚ :=
  let xSpan := xRange.max - xRange.min
  if xSpan = 0 then chartArea.x + chartArea.width / 2
  else chartArea.x + ((value - xRange.min) / xSpan) * chartArea.width

/-- Standard linear `unscaleX`. -/
def stdUnscaleX (xRange : Range) (chartArea : Rect) (coordinate : ℚ) : ℚ :=
  let xSpan := xRange.max - xRange.min
  if xSpan = 0 then xRange.min
  else xRange.min + ((coordinate - chartArea.x) / chartArea.width) * xSpan

/-- `scaleY`: inverted linear scale (screen y grows downward). -/
def scaleY (yRange : Range) (chartArea : Rect) (value : ℚ) : ℚ :=
  let ySpan := yRange.max - yRange.min
  if ySpan = 0 then chartArea.y + chartArea.height / 2
  else chartArea.y + chartArea.height
    - ((value - yRange.min) / ySpan) * chartArea.height

/-- `unscaleY`. -/
def unscaleY (yRange : Range) (chartArea : Rect) (coordinate : ℚ) : ℚ :=
  let ySpan := yRange.max - yRange.min
  if ySpan = 0 then yRange.min
  else yRange.min
    + ((chartArea.y + chartArea.height - coordinate) / chartArea.height) * ySpan

/-- The data segments walked by the fixed-width loops: from `start` to the next
gap's `startX`, resuming at that gap's `endX`, ending at `xmax`. -/
def segmentsFrom (start : ℚ) (gs : List Gap) (xmax : ℚ) : List (ℚ × ℚ) :=
  match gs with
  | [] => [(start, xmax)]
  | g :: rest => (start, g.startX) :: segmentsFrom g.endX rest xmax

/-- All data segments of a range with respect to a gap list. -/
def segmentsOf (xRange : Range) (gs : List Gap) : List (ℚ × ℚ) :=
  segmentsFrom xRange.min gs xRange.max

/-- `totalDataTimeSpan`: the summed time spans of the data segments. -/
def totalDataTimeSpan (segs : List (ℚ × ℚ)) : ℚ :=
  (segs.map fun se => se.2 - se.1).sum

/-- The segment-walking loop of the fixed-width `scaleX`: first segment whose
closed range contains the value wins; the fall-through returns `chartArea.x`. -/
def fwScaleXAux (ratio gapW areaX : ℚ) :
    List (ℚ × ℚ) → ℚ → ℚ → ℚ → ℚ
  | [], _, _, _ => areaX
  | (s, e) :: rest, value, cumPx, cumGaps =>
    if s ≤ value ∧ value ≤ e then
      areaX + cumPx + (value - s) * ratio + cumGaps * gapW
    else fwScaleXAux ratio gapW areaX rest value (cumPx + (e - s) * ratio)
      (cumGaps + 1)

/-- Fixed-width-gap `scaleX` of `createScalingFunctions`. -/
def fwScaleX (xRange : Range) (chartArea : Rect) (gs : List Gap) (gapW : ℚ)
    (value : ℚ) : ℚ :=
  let segs := segmentsOf xRange gs
  let total := totalDataTimeSpan segs
  if total = 0 then chartArea.x + chartArea.width / 2
  else
    let dataWidth := chartArea.width - (gs.length : ℚ) * gapW
    fwScaleXAux (dataWidth / total) gapW chartArea.x segs value 0 0

/-- The segment/gap-walking loop of the fixed-width `unscaleX`; gap bands are
checked only after non-final segments; the fall-through returns `xmin`. -/
def fwUnscaleXAux (ratio gapW xmin : ℚ) :
    List (ℚ × ℚ) → ℚ → ℚ → ℚ → ℚ
  | [], _, _, _ => xmin
  | (s, e) :: rest, r, cumPx, cumGaps =>
    let segPx := (e - s) * ratio
    let startPx := cumPx + cumGaps * gapW
    let endPx := startPx + segPx
    if startPx ≤ r ∧ r ≤ endPx then s + (r - startPx) / ratio
    else if rest ≠ [] ∧ endPx ≤ r ∧ r ≤ endPx + gapW then e
    else fwUnscaleXAux ratio gapW xmin rest r (cumPx + segPx) (cumGaps + 1)

/-- Fixed-width-gap `unscaleX` of `createScalingFunctions`. -/
def fwUnscaleX (xRange : Range) (chartArea : Rect) (gs : List Gap) (gapW : ℚ)
    (coordinate : ℚ) : ℚ :=
  let segs := segmentsOf xRange gs
  let total := totalDataTimeSpan segs
  if total = 0 then xRange.min
  else
    let dataWidth := chartArea.width - (gs.length : ℚ) * gapW
    fwUnscaleXAux (dataWidth / total) gapW xRange.min segs
      (coordinate - chartArea.x) 0 0

/-- Gaps are detected only when `gaps?.enabled && gaps?.fixedWidthGaps`
(useDataScaling). -/
def detectedGapsOf (xData : List ℚ) (cfg : Option GapConfig) : List Gap :=
  match cfg with
  | some c =>
    if c.enabled ∧ c.fixedWidthGaps then detectGaps xData (resolvedThreshold c)
    else []
  | none => []

/-- The `{scaleX, unscaleX}` pair returned by `createScalingFunctions`. -/
structure ScalingFunctions where
  scaleX : ℚ → ℚ
  unscaleX : ℚ → ℚ

/-- The truthiness of `gaps?.fixedWidthGaps`. -/
def fwFlagOf (cfg : Option GapConfig) : Bool :=
  match cfg with
  | some c => c.fixedWidthGaps
  | none => false

/-- The `gaps.fixedWidth || 40` pixel width used in the fixed-width branch. -/
def gapWOf (cfg : Option GapConfig) : ℚ :=
  match cfg with
  | some c => resolvedFixedWidth c
  | none => 40

/-- `createScalingFunctions` (src/unnamed/part_003): standard linear scaling
unless fixed-width gaps are enabled and at least one gap was detected. -/
def createScalingFunctions (xData : List ℚ) (cfg : Option GapConfig)
    (chartArea : Rect) : ScalingFunctions :=
  let xRange := xRangeOf xData
  let detected := detectedGapsOf xData cfg
  if fwFlagOf cfg = false ∨ detected = [] then
    ⟨stdScaleX xRange chartArea, stdUnscaleX xRange chartArea⟩
  else
    ⟨fwScaleX xRange chartArea detected (gapWOf cfg),
      fwUnscaleX xRange chartArea detected (gapWOf cfg)⟩

/-- Membership of a value in the data segments, requiring strict inequality at
the left endpoint of every segment that follows a gap (`first = false` once a
segment has been passed). -/
def inSegsD : List (ℚ × ℚ) → ℚ → Bool → Bool
  | [], _, _ => false
  | (s, e) :: rest, v, first =>
    ((cond first (decide (s ≤ v)) (decide (s < v))) && decide (v ≤ e))
      || inSegsD rest v false

/-- Proportional-mode round trip: `unscaleX (scaleX v) = v` whenever the x span
is non-zero and the rectangle width is non-zero. -/
theorem stdScaleX_roundTrip (xRange : Range) (chartArea : Rect) (value : ℚ)
    (hspan : xRange.max - xRange.min ≠ 0) (hw : chartArea.width ≠ 0) :
    stdUnscaleX xRange chartArea (stdScaleX xRange chartArea value) = value := by
  unfold stdScaleX stdUnscaleX
  rw [if_neg hspan, if_neg hspan]
  field_simp
  ring

/-- Y round trip: `unscaleY (scaleY v) = v` whenever the y span is non-zero
and the rectangle height is non-zero. -/
theorem scaleY_roundTrip (yRange : Range) (chartArea : Rect) (value : ℚ)
    (hspan : yRange.max - yRange.min ≠ 0) (hh : chartArea.height ≠ 0) :
    unscaleY yRange chartArea (scaleY yRange chartArea value) = value := by
  unfold scaleY unscaleY
  rw [if_neg hspan, if_neg hspan]
  field_simp
  ring

/-! ## Structure of detected gaps and data segments -/

/-- The gap record built for the pair at indices `j` and `j + 1`. -/
def gapAt (ts : List ℚ) (j : ℕ) : Gap :=
  ⟨j, j + 1, ts.getD j 0, ts.getD (j + 1) 0, ts.getD (j + 1) 0 - ts.getD j 0⟩

theorem detectGaps_eq (ts : List ℚ) (t : ℚ) :
    detectGaps ts t = (List.range (ts.length - 1)).filterMap (fun j =>
      if ts.getD (j + 1) 0 - ts.getD j 0 > t * calculateExpectedInterval ts
      then some (gapAt ts j) else none) := by
  by_cases h2 : ts.length < 2
  · rw [detectGaps, if_pos h2]
    have hz : ts.length - 1 = 0 := by omega
    rw [hz]
    simp
  · rw [detectGaps, if_neg h2, detectGapsAux_eq]
    refine List.filterMap_congr ?_
    intro j _
    simp [gapAt]

theorem detectGaps_mem {ts : List ℚ} {t : ℚ} {g : Gap}
    (h : g ∈ detectGaps ts t) : ∃ j, j + 1 < ts.length ∧ g = gapAt ts j := by
  rw [detectGaps_eq] at h
  rcases List.mem_filterMap.mp h with ⟨j, hj, hfj⟩
  rw [List.mem_range] at hj
  refine ⟨j, by omega, ?_⟩
  by_cases hc : ts.getD (j + 1) 0 - ts.getD j 0 > t * calculateExpectedInterval ts
  · rw [if_pos hc] at hfj
    exact (Option.some_inj.mp hfj).symm
  · rw [if_neg hc] at hfj
    exact absurd hfj (Option.noConfusion)

theorem getD_eq_get (l : List ℚ) {i : ℕ} (h : i < l.length) :
    l.getD i 0 = l.get ⟨i, h⟩ := by
  simp [List.getD_eq_getElem?_getD, List.getElem?_eq_getElem h]

theorem sorted_getD_lt {ts : List ℚ} (hs : ts.Sorted (· < ·)) {i j : ℕ}
    (hij : i < j) (hj : j < ts.length) : ts.getD i 0 < ts.getD j 0 := by
  have hi : i < ts.length := lt_trans hij hj
  rw [getD_eq_get ts hi, getD_eq_get ts hj]
  exact hs.rel_get_of_lt (Fin.mk_lt_mk.mpr hij)

theorem sorted_getD_le {ts : List ℚ} (hs : ts.Sorted (· < ·)) {i j : ℕ}
    (hij : i ≤ j) (hj : j < ts.length) : ts.getD i 0 ≤ ts.getD j 0 := by
  rcases Nat.eq_or_lt_of_le hij with rfl | hlt
  · exact le_refl _
  · exact le_of_lt (sorted_getD_lt hs hlt hj)

theorem getD_mem (l : List ℚ) {i : ℕ} (h : i < l.length) : l.getD i 0 ∈ l := by
  rw [getD_eq_get l h]
  exact List.get_mem l i h

theorem foldl_min_le_init : ∀ (r : List ℚ) (a : ℚ), r.foldl min a ≤ a := by
  intro r
  induction r with
  | nil => intro a; exact le_refl a
  | cons b r ih =>
    intro a
    calc (b :: r).foldl min a = r.foldl min (min a b) := rfl
    _ ≤ min a b := ih (min a b)
    _ ≤ a := min_le_left a b

theorem foldl_min_le_mem :
    ∀ (r : List ℚ) (a v : ℚ), v ∈ r → r.foldl min a ≤ v := by
  intro r
  induction r with
  | nil => intro a v hv; exact absurd hv (List.not_mem_nil v)
  | cons b r ih =>
    intro a v hv
    rcases List.mem_cons.mp hv with rfl | hv
    · calc (v :: r).foldl min a = r.foldl min (min a v) := rfl
      _ ≤ min a v := foldl_min_le_init r (min a v)
      _ ≤ v := min_le_right a v
    · exact ih (min a b) v hv

theorem listMin_le {l : List ℚ} {v : ℚ} (hv : v ∈ l) : listMin l ≤ v := by
  cases l with
  | nil => exact absurd hv (List.not_mem_nil v)
  | cons a r =>
    rcases List.mem_cons.mp hv with rfl | hv
    · exact foldl_min_le_init r v
    · exact foldl_min_le_mem r a v hv

theorem init_le_foldl_max : ∀ (r : List ℚ) (a : ℚ), a ≤ r.foldl max a := by
  intro r
  induction r with
  | nil => intro a; exact le_refl a
  | cons b r ih =>
    intro a
    calc a ≤ max a b := le_max_left a b
    _ ≤ r.foldl max (max a b) := ih (max a b)
    _ = (b :: r).foldl max a := rfl

theorem mem_le_foldl_max :
    ∀ (r : List ℚ) (a v : ℚ), v ∈ r → v ≤ r.foldl max a := by
  intro r
  induction r with
  | nil => intro a v hv; exact absurd hv (List.not_mem_nil v)
  | cons b r ih =>
    intro a v hv
    rcases List.mem_cons.mp hv with rfl | hv
    · calc v ≤ max a v := le_max_right a v
      _ ≤ r.foldl max (max a v) := init_le_foldl_max r (max a v)
      _ = (v :: r).foldl max a := rfl
    · exact ih (max a b) v hv

theorem le_listMax {l : List ℚ} {v : ℚ} (hv : v ∈ l) : v ≤ listMax l := by
  cases l with
  | nil => exact absurd hv (List.not_mem_nil v)
  | cons a r =>
    rcases List.mem_cons.mp hv with rfl | hv
    · exact init_le_foldl_max r v
    · exact mem_le_foldl_max r a v hv

theorem detectGaps_startX_lt_endX {ts : List ℚ} (hs : ts.Sorted (· < ·))
    {t : ℚ} {g : Gap} (hg : g ∈ detectGaps ts t) : g.startX < g.endX := by
  rcases detectGaps_mem hg with ⟨j, hj, rfl⟩
  exact sorted_getD_lt hs (Nat.lt_succ_self j) hj

theorem detectGaps_bounds {ts : List ℚ} {t : ℚ} {g : Gap}
    (hg : g ∈ detectGaps ts t) :
    listMin ts ≤ g.startX ∧ g.endX ≤ listMax ts := by
  rcases detectGaps_mem hg with ⟨j, hj, rfl⟩
  exact ⟨listMin_le (getD_mem ts (by omega)), le_listMax (getD_mem ts hj)⟩

theorem detectGaps_pairwise {ts : List ℚ} (hs : ts.Sorted (· < ·)) (t : ℚ) :
    (detectGaps ts t).Pairwise (fun g g' => g.endX ≤ g'.startX) := by
  rw [detectGaps_eq]
  have hrange : (List.range (ts.length - 1)).Pairwise
      (fun a b => a < b ∧ b < ts.length - 1) := by
    refine (List.pairwise_lt_range _).imp_of_mem ?_
    intro a b _ hb hab
    exact ⟨hab, List.mem_range.mp hb⟩
  refine List.Pairwise.filterMap _ ?_ hrange
  intro a b hab x hx y hy
  have hxa : x = gapAt ts a := by
    by_cases hc : ts.getD (a + 1) 0 - ts.getD a 0 > t * calculateExpectedInterval ts
    · rw [if_pos hc] at hx; exact (Option.mem_some_iff.mp hx).symm
    · rw [if_neg hc] at hx; exact absurd hx (by simp)
  have hyb : y = gapAt ts b := by
    by_cases hc : ts.getD (b + 1) 0 - ts.getD b 0 > t * calculateExpectedInterval ts
    · rw [if_pos hc] at hy; exact (Option.mem_some_iff.mp hy).symm
    · rw [if_neg hc] at hy; exact absurd hy (by simp)
  subst hxa; subst hyb
  exact sorted_getD_le hs (by omega) (by omega)

theorem segmentsFrom_ne_nil (start : ℚ) (gs : List Gap) (xmax : ℚ) :
    segmentsFrom start gs xmax ≠ [] := by
  cases gs <;> simp [segmentsFrom]

theorem segmentsFrom_head_fst (start : ℚ) (gs : List Gap) (xmax : ℚ) :
    ∃ p q, segmentsFrom start gs xmax = p :: q ∧ p.1 = start := by
  cases gs <;> simp [segmentsFrom]

theorem segmentsFrom_props (xmax : ℚ) :
    ∀ (gs : List Gap) (start : ℚ),
      (∀ g ∈ gs, g.startX < g.endX) →
      gs.Pairwise (fun g g' => g.endX ≤ g'.startX) →
      start ≤ ((gs.head?.map Gap.startX).getD xmax) →
      (∀ g ∈ gs, g.endX ≤ xmax) →
      (∀ p ∈ segmentsFrom start gs xmax, p.1 ≤ p.2)
        ∧ (segmentsFrom start gs xmax).Chain' (fun a b => a.2 < b.1) := by
  intro gs
  induction gs with
  | nil =>
    intro start _ _ hstart _
    simp only [segmentsFrom]
    constructor
    · intro p hp
      rcases List.mem_singleton.mp hp with rfl
      simpa using hstart
    · exact List.chain'_singleton _
  | cons g rest ih =>
    intro start hlt hpw hstart hmax
    have hstart' : start ≤ g.startX := by simpa using hstart
    have hlt' : ∀ g' ∈ rest, g'.startX < g'.endX :=
      fun g' hg' => hlt g' (List.mem_cons_of_mem g hg')
    have hpw' : rest.Pairwise (fun g g' => g.endX ≤ g'.startX) := hpw.of_cons
    have hmax' : ∀ g' ∈ rest, g'.endX ≤ xmax :=
      fun g' hg' => hmax g' (List.mem_cons_of_mem g hg')
    have hnext : g.endX ≤ ((rest.head?.map Gap.startX).getD xmax) := by
      cases rest with
      | nil => simpa using hmax g (List.mem_cons_self _ _)
      | cons g' rest' =>
        simp only [List.head?_cons, Option.map_some', Option.getD_some]
        exact (List.pairwise_cons.mp hpw).1 g' (List.mem_cons_self g' rest')
    obtain ⟨hspan', hchain'⟩ := ih g.endX hlt' hpw' hnext hmax'
    constructor
    · intro p hp
      simp only [segmentsFrom, List.mem_cons] at hp
      rcases hp with rfl | hp
      · exact hstart'
      · exact hspan' p hp
    · show List.Chain' _ ((start, g.startX) :: segmentsFrom g.endX rest xmax)
      rw [List.chain'_cons']
      refine ⟨?_, hchain'⟩
      intro b hb
      rcases segmentsFrom_head_fst g.endX rest xmax with ⟨p, q, heq, hfst⟩
      rw [heq] at hb
      simp only [List.head?_cons, Option.mem_def, Option.some_inj] at hb
      subst hb
      rw [hfst]
      exact hlt g (List.mem_cons_self g rest)

/-! ## Fixed-width round trip -/

theorem inSegsD_false_head_lt :
    ∀ (ls : List (ℚ × ℚ)) (s e v : ℚ),
      inSegsD ((s, e) :: ls) v false = true →
      (∀ p ∈ (s, e) :: ls, p.1 ≤ p.2) →
      ((s, e) :: ls).Chain' (fun a b : ℚ × ℚ => a.2 < b.1) →
      s < v := by
  intro ls
  induction ls with
  | nil =>
    intro s e v hm _ _
    simp only [inSegsD, Bool.or_eq_true, Bool.and_eq_true, decide_eq_true_eq,
      Bool.cond_false] at hm
    rcases hm with ⟨h1, _⟩ | h2
    · exact h1
    · exact absurd h2 (by simp [inSegsD])
  | cons q ls ih =>
    intro s e v hm hsp hch
    rcases q with ⟨s', e'⟩
    simp only [inSegsD, Bool.or_eq_true, Bool.and_eq_true, decide_eq_true_eq,
      Bool.cond_false] at hm
    rcases hm with ⟨h1, _⟩ | h2
    · exact h1
    · have hs'v : s' < v := by
        refine ih s' e' v ?_ ?_ hch.tail
        · simpa [inSegsD, Bool.or_eq_true, Bool.and_eq_true,
            decide_eq_true_eq] using h2
        · intro p hp
          exact hsp p (List.mem_cons_of_mem _ hp)
      have hes' : e < s' := (List.chain'_cons.mp hch).1
      have hse : s ≤ e := hsp (s, e) (List.mem_cons_self _ _)
      linarith

theorem fwScaleXAux_lb (ratio gapW areaX : ℚ) (hr : 0 < ratio) (hw : 0 ≤ gapW) :
    ∀ (segs : List (ℚ × ℚ)) (v cumPx cumGaps : ℚ),
      (∀ p ∈ segs, p.1 ≤ p.2) →
      segs.Chain' (fun a b : ℚ × ℚ => a.2 < b.1) →
      inSegsD segs v false = true →
      cumPx + cumGaps * gapW
        < fwScaleXAux ratio gapW areaX segs v cumPx cumGaps - areaX := by
  intro segs
  induction segs with
  | nil =>
    intro v cumPx cumGaps _ _ hm
    exact absurd hm (by simp [inSegsD])
  | cons q rest ih =>
    rcases q with ⟨s, e⟩
    intro v cumPx cumGaps hsp hch hm
    by_cases hhead : s ≤ v ∧ v ≤ e
    · simp only [fwScaleXAux, if_pos hhead]
      have hsv : s < v := by
        simp only [inSegsD, Bool.or_eq_true, Bool.and_eq_true,
          decide_eq_true_eq, Bool.cond_false] at hm
        rcases hm with ⟨h1, _⟩ | h2
        · exact h1
        · cases rest with
          | nil => exact absurd h2 (by simp [inSegsD])
          | cons q' rest' =>
            rcases q' with ⟨s', e'⟩
            have hs'v : s' < v := inSegsD_false_head_lt rest' s' e' v h2
              (fun p hp => hsp p (List.mem_cons_of_mem _ hp)) hch.tail
            have hes' : e < s' := (List.chain'_cons.mp hch).1
            linarith [hhead.2]
      have hpos : 0 < (v - s) * ratio := mul_pos (by linarith) hr
      linarith
    · simp only [fwScaleXAux, if_neg hhead]
      have hm' : inSegsD rest v false = true := by
        simp only [inSegsD, Bool.or_eq_true, Bool.and_eq_true,
          decide_eq_true_eq, Bool.cond_false] at hm
        rcases hm with ⟨h1, h2⟩ | h2
        · exact absurd ⟨le_of_lt h1, h2⟩ hhead
        · exact h2
      have hse : s ≤ e := hsp (s, e) (List.mem_cons_self _ _)
      have hes : 0 ≤ (e - s) * ratio := mul_nonneg (by linarith) hr.le
      have := ih v (cumPx + (e - s) * ratio) (cumGaps + 1)
        (fun p hp => hsp p (List.mem_cons_of_mem _ hp)) hch.tail hm'
      nlinarith

theorem fw_roundTrip_aux (ratio gapW areaX xmin : ℚ)
    (hr : 0 < ratio) (hw : 0 ≤ gapW) :
    ∀ (segs : List (ℚ × ℚ)) (v cumPx cumGaps : ℚ) (first : Bool),
      (∀ p ∈ segs, p.1 ≤ p.2) →
      segs.Chain' (fun a b : ℚ × ℚ => a.2 < b.1) →
      inSegsD segs v first = true →
      fwUnscaleXAux ratio gapW xmin segs
        (fwScaleXAux ratio gapW areaX segs v cumPx cumGaps - areaX)
        cumPx cumGaps = v := by
  intro segs
  induction segs with
  | nil =>
    intro v cumPx cumGaps first _ _ hm
    exact absurd hm (by simp [inSegsD])
  | cons q rest ih =>
    rcases q with ⟨s, e⟩
    intro v cumPx cumGaps first hsp hch hm
    by_cases hhead : s ≤ v ∧ v ≤ e
    · simp only [fwScaleXAux, if_pos hhead, fwUnscaleXAux]
      have hc1 : cumPx + cumGaps * gapW
          ≤ areaX + cumPx + (v - s) * ratio + cumGaps * gapW - areaX := by
        have : 0 ≤ (v - s) * ratio := mul_nonneg (by linarith [hhead.1]) hr.le
        linarith
      have hc2 : areaX + cumPx + (v - s) * ratio + cumGaps * gapW - areaX
          ≤ cumPx + cumGaps * gapW + (e - s) * ratio := by
        have : (v - s) * ratio ≤ (e - s) * ratio :=
          mul_le_mul_of_nonneg_right (by linarith [hhead.2]) hr.le
        linarith
      rw [if_pos ⟨hc1, hc2⟩]
      have harith : areaX + cumPx + (v - s) * ratio + cumGaps * gapW - areaX
          - (cumPx + cumGaps * gapW) = (v - s) * ratio := by ring
      rw [harith, mul_div_assoc, div_self hr.ne', mul_one]
      ring
    · have hm' : inSegsD rest v false = true := by
        cases first with
        | true =>
          simp only [inSegsD, Bool.or_eq_true, Bool.and_eq_true,
            decide_eq_true_eq, Bool.cond_true] at hm
          rcases hm with ⟨h1, h2⟩ | h2
          · exact absurd ⟨h1, h2⟩ hhead
          · exact h2
        | false =>
          simp only [inSegsD, Bool.or_eq_true, Bool.and_eq_true,
            decide_eq_true_eq, Bool.cond_false] at hm
          rcases hm with ⟨h1, h2⟩ | h2
          · exact absurd ⟨le_of_lt h1, h2⟩ hhead
          · exact h2
      have hse : s ≤ e := hsp (s, e) (List.mem_cons_self _ _)
      have hlb := fwScaleXAux_lb ratio gapW areaX hr hw rest v
        (cumPx + (e - s) * ratio) (cumGaps + 1)
        (fun p hp => hsp p (List.mem_cons_of_mem _ hp)) hch.tail hm'
      simp only [fwScaleXAux, if_neg hhead, fwUnscaleXAux]
      have hgap : cumPx + (e - s) * ratio + (cumGaps + 1) * gapW
          = cumPx + cumGaps * gapW + (e - s) * ratio + gapW := by ring
      rw [hgap] at hlb
      rw [if_neg, if_neg]
      · exact ih v (cumPx + (e - s) * ratio) (cumGaps + 1) false
          (fun p hp => hsp p (List.mem_cons_of_mem _ hp)) hch.tail hm'
      · rintro ⟨-, -, hle⟩
        linarith
      · rintro ⟨-, hle⟩
        linarith

theorem listMin_le_listMax (l : List ℚ) : listMin l ≤ listMax l := by
  cases l with
  | nil => exact le_refl 0
  | cons a r =>
    calc listMin (a :: r) ≤ a := listMin_le (List.mem_cons_self _ _)
    _ ≤ listMax (a :: r) := le_listMax (List.mem_cons_self _ _)

theorem derived_segments_props {xData : List ℚ} (hs : xData.Sorted (· < ·))
    (t : ℚ) :
    (∀ p ∈ segmentsOf (xRangeOf xData) (detectGaps xData t), p.1 ≤ p.2)
      ∧ (segmentsOf (xRangeOf xData) (detectGaps xData t)).Chain'
          (fun a b => a.2 < b.1) := by
  refine segmentsFrom_props (listMax xData) (detectGaps xData t) (listMin xData)
    ?_ (detectGaps_pairwise hs t) ?_ ?_
  · intro g hg
    exact detectGaps_startX_lt_endX hs hg
  · cases hgl : detectGaps xData t with
    | nil => simpa using listMin_le_listMax xData
    | cons g rest =>
      have hg : g ∈ detectGaps xData t := by rw [hgl]; exact List.mem_cons_self _ _
      simpa using (detectGaps_bounds hg).1
  · intro g hg
    exact (detectGaps_bounds hg).2

/-- C2 (corrected, amended): round trips of the scaling functions.
In the default proportional mode `unscaleX (scaleX v) = v` for every in-range
value given a non-degenerate x span and non-zero width, and
`unscaleY (scaleY w) = w` likewise for y.  In fixed-width gap mode the x round
trip holds for every value lying inside a data segment other than the left
endpoint of a segment that immediately follows a gap (given ascending data, a
positive remaining data width, a non-negative gap pixel width and a positive
total segment time span); it fails at gap-interior values and post-gap segment
starts, see `scaling_roundTrip_counterexample`. -/
theorem scaling_roundTrip :
    (∀ (xData : List ℚ) (cfg : Option GapConfig) (chartArea : Rect) (v : ℚ),
        fwFlagOf cfg = false ∨ detectedGapsOf xData cfg = [] →
        (xRangeOf xData).max - (xRangeOf xData).min ≠ 0 →
        chartArea.width ≠ 0 →
        (xRangeOf xData).min ≤ v → v ≤ (xRangeOf xData).max →
        (createScalingFunctions xData cfg chartArea).unscaleX
          ((createScalingFunctions xData cfg chartArea).scaleX v) = v)
    ∧ (∀ (xData : List ℚ) (cfg : Option GapConfig) (chartArea : Rect) (v : ℚ),
        fwFlagOf cfg = true →
        detectedGapsOf xData cfg ≠ [] →
        xData.Sorted (· < ·) →
        0 < chartArea.width
          - ((detectedGapsOf xData cfg).length : ℚ) * gapWOf cfg →
        0 ≤ gapWOf cfg →
        0 < totalDataTimeSpan
            (segmentsOf (xRangeOf xData) (detectedGapsOf xData cfg)) →
        inSegsD (segmentsOf (xRangeOf xData) (detectedGapsOf xData cfg)) v true
          = true →
        (createScalingFunctions xData cfg chartArea).unscaleX
          ((createScalingFunctions xData cfg chartArea).scaleX v) = v)
    ∧ (∀ (yRange : Range) (chartArea : Rect) (w : ℚ),
        yRange.max - yRange.min ≠ 0 → chartArea.height ≠ 0 →
        yRange.min ≤ w → w ≤ yRange.max →
        unscaleY yRange chartArea (scaleY yRange chartArea w) = w) := by
  refine ⟨?_, ?_, ?_⟩
  · intro xData cfg chartArea v hcond hspan hw _ _
    simp only [createScalingFunctions, if_pos hcond]
    exact stdScaleX_roundTrip (xRangeOf xData) chartArea v hspan hw
  · intro xData cfg chartArea v hflag hne hsort hdw hgw htot hmem
    have hcond : ¬(fwFlagOf cfg = false ∨ detectedGapsOf xData cfg = []) := by
      push_neg
      exact ⟨by rw [hflag]; simp, hne⟩
    simp only [createScalingFunctions, if_neg hcond]
    cases cfg with
    | none => exact absurd hflag (by simp [fwFlagOf])
    | some c =>
      by_cases hen : c.enabled ∧ c.fixedWidthGaps
      · have hgaps : detectedGapsOf xData (some c)
            = detectGaps xData (resolvedThreshold c) := by
          simp [detectedGapsOf, hen]
        rw [hgaps] at hdw htot hmem ⊢
        obtain ⟨hspans, hchain⟩ :=
          derived_segments_props hsort (resolvedThreshold c)
        show fwUnscaleX (xRangeOf xData) chartArea _ _
          (fwScaleX (xRangeOf xData) chartArea _ _ v) = v
        rw [fwScaleX, fwUnscaleX, if_neg (ne_of_gt htot), if_neg (ne_of_gt htot)]
        have hr : 0 < (chartArea.width
            - ((detectGaps xData (resolvedThreshold c)).length : ℚ)
              * gapWOf (some c))
            / totalDataTimeSpan (segmentsOf (xRangeOf xData)
              (detectGaps xData (resolvedThreshold c))) := div_pos hdw htot
        have := fw_roundTrip_aux _ (gapWOf (some c)) chartArea.x
          (xRangeOf xData).min hr hgw
          (segmentsOf (xRangeOf xData) (detectGaps xData (resolvedThreshold c)))
          v 0 0 true hspans hchain hmem
        exact this
      · exact absurd (by simp [detectedGapsOf, hen] : detectedGapsOf xData
          (some c) = []) hne
  · intro yRange chartArea w hspan hh _ _
    exact scaleY_roundTrip yRange chartArea w hspan hh

/-- Counterexample to C2 as stated: with data `[0,1,2,10,11,12]`, fixed-width
gap mode (default threshold and width) and rectangle `0..100`, the in-range
value `10` (the data point right after the detected gap) round-trips to `2`,
because the scaled coordinate of `10` is the inclusive right edge of the gap's
pixel band and `unscaleX` snaps it to the gap's start. -/
theorem scaling_roundTrip_counterexample :
    (xRangeOf [0, 1, 2, 10, 11, 12]).min ≤ 10
      ∧ (10 : ℚ) ≤ (xRangeOf [0, 1, 2, 10, 11, 12]).max
      ∧ (createScalingFunctions [0, 1, 2, 10, 11, 12]
          (some ⟨true, none, true, none⟩) ⟨0, 0, 100, 100⟩).unscaleX
        ((createScalingFunctions [0, 1, 2, 10, 11, 12]
          (some ⟨true, none, true, none⟩) ⟨0, 0, 100, 100⟩).scaleX 10) = 2
      ∧ (2 : ℚ) ≠ 10 := by
  norm_num [createScalingFunctions, detectedGapsOf, resolvedThreshold,
    DEFAULT_GAP_THRESHOLD, detectGaps, detectGapsAux, calculateExpectedInterval,
    intervalsOf, List.insertionSort, List.orderedInsert, fwFlagOf, gapWOf,
    resolvedFixedWidth, xRangeOf, listMin, listMax, List.foldl, min_def,
    max_def, segmentsOf, segmentsFrom, totalDataTimeSpan, fwScaleX,
    fwScaleXAux, fwUnscaleX, fwUnscaleXAux, stdScaleX, stdUnscaleX]

/-- Witness for the amended C2 on concrete data in each mode. -/
theorem scaling_roundTrip_witness :
    ((createScalingFunctions [0, 1, 2] none ⟨0, 0, 100, 100⟩).unscaleX
        ((createScalingFunctions [0, 1, 2] none ⟨0, 0, 100, 100⟩).scaleX 1) = 1)
    ∧ ((createScalingFunctions [0, 1, 2, 10, 11, 12]
          (some ⟨true, none, true, none⟩) ⟨0, 0, 100, 100⟩).unscaleX
        ((createScalingFunctions [0, 1, 2, 10, 11, 12]
          (some ⟨true, none, true, none⟩) ⟨0, 0, 100, 100⟩).scaleX 11) = 11)
    ∧ (unscaleY ⟨0, 10⟩ ⟨0, 0, 100, 100⟩
        (scaleY ⟨0, 10⟩ ⟨0, 0, 100, 100⟩ 4) = 4) := by
  refine ⟨scaling_roundTrip.1 [0, 1, 2] none ⟨0, 0, 100, 100⟩ 1
      (Or.inl rfl)
      (by norm_num [xRangeOf, listMin, listMax, List.foldl, min_def, max_def])
      (by norm_num)
      (by norm_num [xRangeOf, listMin, listMax, List.foldl, min_def, max_def])
      (by norm_num [xRangeOf, listMin, listMax, List.foldl, min_def, max_def]),
    scaling_roundTrip.2.1 [0, 1, 2, 10, 11, 12]
      (some ⟨true, none, true, none⟩) ⟨0, 0, 100, 100⟩ 11
      rfl
      (by norm_num [detectedGapsOf, resolvedThreshold, DEFAULT_GAP_THRESHOLD,
        detectGaps, detectGapsAux, calculateExpectedInterval, intervalsOf,
        List.insertionSort, List.orderedInsert])
      (by decide)
      (by norm_num [detectedGapsOf, resolvedThreshold, DEFAULT_GAP_THRESHOLD,
        detectGaps, detectGapsAux, calculateExpectedInterval, intervalsOf,
        List.insertionSort, List.orderedInsert, gapWOf, resolvedFixedWidth])
      (by norm_num [gapWOf, resolvedFixedWidth])
      (by norm_num [detectedGapsOf, resolvedThreshold, DEFAULT_GAP_THRESHOLD,
        detectGaps, detectGapsAux, calculateExpectedInterval, intervalsOf,
        List.insertionSort, List.orderedInsert, segmentsOf, segmentsFrom,
        totalDataTimeSpan, xRangeOf, listMin, listMax, List.foldl, min_def,
        max_def])
      (by norm_num [detectedGapsOf, resolvedThreshold, DEFAULT_GAP_THRESHOLD,
        detectGaps, detectGapsAux, calculateExpectedInterval, intervalsOf,
        List.insertionSort, List.orderedInsert, segmentsOf, segmentsFrom,
        inSegsD, xRangeOf, listMin, listMax, List.foldl, min_def, max_def]),
    scaling_roundTrip.2.2 ⟨0, 10⟩ ⟨0, 0, 100, 100⟩ 4
      (by norm_num) (by norm_num) (by norm_num) (by norm_num)⟩

/-! ## C3: mapping of gap-interior values and gap pixel bands -/

theorem fwScaleXAux_notMem (ratio gapW areaX : ℚ) :
    ∀ (segs : List (ℚ × ℚ)) (v cumPx cumGaps : ℚ),
      (∀ p ∈ segs, ¬(p.1 ≤ v ∧ v ≤ p.2)) →
      fwScaleXAux ratio gapW areaX segs v cumPx cumGaps = areaX := by
  intro segs
  induction segs with
  | nil => intro v cumPx cumGaps _; rfl
  | cons q rest ih =>
    rcases q with ⟨s, e⟩
    intro v cumPx cumGaps hno
    simp only [fwScaleXAux, if_neg (hno (s, e) (List.mem_cons_self _ _))]
    exact ih v _ _ (fun p hp => hno p (List.mem_cons_of_mem _ hp))

theorem segmentsFrom_fst_cases (xmax : ℚ) :
    ∀ (gs : List Gap) (start : ℚ), ∀ p ∈ segmentsFrom start gs xmax,
      p.1 = start ∨ ∃ g ∈ gs, p.1 = g.endX := by
  intro gs
  induction gs with
  | nil =>
    intro start p hp
    rcases List.mem_singleton.mp hp with rfl
    exact Or.inl rfl
  | cons g rest ih =>
    intro start p hp
    simp only [segmentsFrom, List.mem_cons] at hp
    rcases hp with rfl | hp
    · exact Or.inl rfl
    · rcases ih g.endX p hp with h | ⟨g', hg', h⟩
      · exact Or.inr ⟨g, List.mem_cons_self _ _, h⟩
      · exact Or.inr ⟨g', List.mem_cons_of_mem _ hg', h⟩

theorem segmentsFrom_vs_gaps (xmax : ℚ) :
    ∀ (gs : List Gap) (start : ℚ),
      (∀ g ∈ gs, g.startX < g.endX) →
      gs.Pairwise (fun g g' => g.endX ≤ g'.startX) →
      ∀ p ∈ segmentsFrom start gs xmax, ∀ g ∈ gs,
        p.2 ≤ g.startX ∨ g.endX ≤ p.1 := by
  intro gs
  induction gs with
  | nil => intro start _ _ p _ g hg; exact absurd hg (List.not_mem_nil g)
  | cons g0 rest ih =>
    intro start hlt hpw p hp g hg
    simp only [segmentsFrom, List.mem_cons] at hp
    rcases hp with rfl | hp
    · rcases List.mem_cons.mp hg with rfl | hg
      · exact Or.inl (le_refl _)
      · refine Or.inl ?_
        calc (start, g0.startX).2 = g0.startX := rfl
        _ ≤ g0.endX := (hlt g0 (List.mem_cons_self _ _)).le
        _ ≤ g.startX := (List.pairwise_cons.mp hpw).1 g hg
    · rcases List.mem_cons.mp hg with rfl | hg
      · refine Or.inr ?_
        rcases segmentsFrom_fst_cases xmax rest g.endX p hp with h | ⟨g', hg', h⟩
        · exact le_of_eq h.symm
        · rw [h]
          calc g.endX ≤ g'.startX := (List.pairwise_cons.mp hpw).1 g' hg'
          _ ≤ g'.endX := (hlt g' (List.mem_cons_of_mem _ hg')).le
      · exact ih g0.endX (fun g' hg' => hlt g' (List.mem_cons_of_mem _ hg'))
          hpw.of_cons p hp g hg

theorem gap_startX_inSegsD (xmax : ℚ) :
    ∀ (gs : List Gap) (start : ℚ) (b : Bool),
      (∀ p ∈ segmentsFrom start gs xmax, p.1 < p.2) →
      ∀ g ∈ gs, inSegsD (segmentsFrom start gs xmax) g.startX b = true := by
  intro gs
  induction gs with
  | nil => intro start b _ g hg; exact absurd hg (List.not_mem_nil g)
  | cons g0 rest ih =>
    intro start b hpos g hg
    have hhead : start < g0.startX :=
      hpos (start, g0.startX) (by simp [segmentsFrom])
    rcases List.mem_cons.mp hg with rfl | hg
    · show inSegsD ((start, g.startX) :: segmentsFrom g.endX rest xmax)
        g.startX b = true
      cases b <;>
        simp [inSegsD, hhead, hhead.le]
    · have htail := ih g0.endX false
        (fun p hp => hpos p (by simp [segmentsFrom, List.mem_cons_of_mem, hp]))
        g hg
      show inSegsD ((start, g0.startX) :: segmentsFrom g0.endX rest xmax)
        g.startX b = true
      simp only [inSegsD, Bool.or_eq_true]
      exact Or.inr htail

theorem totalDataTimeSpan_pos {segs : List (ℚ × ℚ)} (hne : segs ≠ [])
    (hpos : ∀ p ∈ segs, p.1 < p.2) : 0 < totalDataTimeSpan segs := by
  cases segs with
  | nil => exact absurd rfl hne
  | cons p rest =>
    have h1 : 0 < p.2 - p.1 := by
      have := hpos p (List.mem_cons_self _ _)
      linarith
    have h2 : 0 ≤ (rest.map fun se => se.2 - se.1).sum := by
      refine List.sum_nonneg ?_
      intro x hx
      rcases List.mem_map.mp hx with ⟨q, hq, rfl⟩
      have := hpos q (List.mem_cons_of_mem _ hq)
      linarith
    show 0 < ((p :: rest).map fun se => se.2 - se.1).sum
    rw [List.map_cons, List.sum_cons]
    linarith

theorem fw_band_aux (ratio gapW areaX xmin xmax : ℚ)
    (hr : 0 < ratio) (hw : 0 < gapW) :
    ∀ (gs : List Gap) (start : ℚ) (cumPx cumGaps : ℚ),
      (∀ p ∈ segmentsFrom start gs xmax, p.1 < p.2) →
      (segmentsFrom start gs xmax).Chain' (fun a b : ℚ × ℚ => a.2 < b.1) →
      (∀ g ∈ gs, g.startX < g.endX) →
      gs.Pairwise (fun g g' => g.endX ≤ g'.startX) →
      ∀ g ∈ gs, ∀ r : ℚ,
        fwScaleXAux ratio gapW areaX (segmentsFrom start gs xmax) g.startX
          cumPx cumGaps - areaX ≤ r →
        r ≤ fwScaleXAux ratio gapW areaX (segmentsFrom start gs xmax) g.startX
          cumPx cumGaps - areaX + gapW →
        fwUnscaleXAux ratio gapW xmin (segmentsFrom start gs xmax) r
          cumPx cumGaps = g.startX := by
  intro gs
  induction gs with
  | nil => intro start _ _ _ _ _ _ g hg; exact absurd hg (List.not_mem_nil g)
  | cons g0 rest ih =>
    intro start cumPx cumGaps hpos hch hlt hpw g hg r hlo hhi
    have hhead : start < g0.startX :=
      hpos (start, g0.startX) (by simp [segmentsFrom])
    rcases List.mem_cons.mp hg with rfl | hgr
    · have hcheck : start ≤ g.startX ∧ g.startX ≤ g.startX :=
        ⟨hhead.le, le_refl _⟩
      rw [show segmentsFrom start (g :: rest) xmax
          = (start, g.startX) :: segmentsFrom g.endX rest xmax from rfl] at *
      simp only [fwScaleXAux, if_pos hcheck] at hlo hhi
      simp only [fwUnscaleXAux]
      split_ifs with h1 h2
      · have hreq : r = cumPx + cumGaps * gapW + (g.startX - start) * ratio := by
          have := h1.2
          have := hlo
          linarith
        rw [hreq]
        have : cumPx + cumGaps * gapW + (g.startX - start) * ratio
            - (cumPx + cumGaps * gapW) = (g.startX - start) * ratio := by ring
        rw [this, mul_div_assoc, div_self hr.ne', mul_one]
        ring
      · rfl
      · exfalso
        refine h2 ⟨segmentsFrom_ne_nil _ _ _, ?_, ?_⟩
        · linarith
        · linarith
    · have hge : g0.endX ≤ g.startX := (List.pairwise_cons.mp hpw).1 g hgr
      have hlt0 : g0.startX < g0.endX := hlt g0 (List.mem_cons_self _ _)
      have hcheckneg : ¬(start ≤ g.startX ∧ g.startX ≤ g0.startX) := by
        rintro ⟨-, h⟩
        linarith
      rw [show segmentsFrom start (g0 :: rest) xmax
          = (start, g0.startX) :: segmentsFrom g0.endX rest xmax from rfl] at *
      simp only [fwScaleXAux, if_neg hcheckneg] at hlo hhi
      have hposTail : ∀ p ∈ segmentsFrom g0.endX rest xmax, p.1 < p.2 :=
        fun p hp => hpos p (List.mem_cons_of_mem _ hp)
      have hmem' : inSegsD (segmentsFrom g0.endX rest xmax) g.startX false
          = true := gap_startX_inSegsD xmax rest g0.endX false hposTail g hgr
      have hlb := fwScaleXAux_lb ratio gapW areaX hr hw.le
        (segmentsFrom g0.endX rest xmax) g.startX
        (cumPx + (g0.startX - start) * ratio) (cumGaps + 1)
        (fun p hp => (hposTail p hp).le) hch.tail hmem'
      simp only [fwUnscaleXAux]
      split_ifs with h1 h2
      · exfalso
        have := h1.2
        nlinarith
      · exfalso
        have := h2.2.2
        nlinarith
      · exact ih g0.endX (cumPx + (g0.startX - start) * ratio) (cumGaps + 1)
          hposTail hch.tail (fun g' hg' => hlt g' (List.mem_cons_of_mem _ hg'))
          hpw.of_cons g hgr r hlo hhi

/-- C3 (corrected, amended): in fixed-width gap mode, an x-value strictly
inside a detected gap's real time range falls through every segment check, so
`scaleX` returns the rectangle's LEFT EDGE `chartArea.x` (the loop's fallback),
not the screen position at which the gap starts; and for every screen
coordinate inside a gap's fixed pixel band (from the scaled position of
`gap.startX` to that position plus the gap pixel width), `unscaleX` returns
`gap.startX`, the x-value at the end of the data segment preceding the gap. -/
theorem fixedWidth_gap_mapping :
    ∀ (xData : List ℚ) (cfg : Option GapConfig) (chartArea : Rect),
      fwFlagOf cfg = true →
      detectedGapsOf xData cfg ≠ [] →
      xData.Sorted (· < ·) →
      0 < chartArea.width
        - ((detectedGapsOf xData cfg).length : ℚ) * gapWOf cfg →
      0 < gapWOf cfg →
      (∀ p ∈ segmentsOf (xRangeOf xData) (detectedGapsOf xData cfg),
        p.1 < p.2) →
      ∀ g ∈ detectedGapsOf xData cfg,
        (∀ v, g.startX < v → v < g.endX →
          (createScalingFunctions xData cfg chartArea).scaleX v = chartArea.x)
        ∧ (∀ c,
            (createScalingFunctions xData cfg chartArea).scaleX g.startX ≤ c →
            c ≤ (createScalingFunctions xData cfg chartArea).scaleX g.startX
              + gapWOf cfg →
            (createScalingFunctions xData cfg chartArea).unscaleX c
              = g.startX) := by
  intro xData cfg chartArea hflag hne hsort hdw hgw hpos g hg
  have hcond : ¬(fwFlagOf cfg = false ∨ detectedGapsOf xData cfg = []) := by
    push_neg
    exact ⟨by rw [hflag]; simp, hne⟩
  have htot : 0 < totalDataTimeSpan
      (segmentsOf (xRangeOf xData) (detectedGapsOf xData cfg)) :=
    totalDataTimeSpan_pos (segmentsFrom_ne_nil _ _ _) hpos
  cases cfg with
  | none => exact absurd hflag (by simp [fwFlagOf])
  | some c =>
    by_cases hen : c.enabled ∧ c.fixedWidthGaps
    · have hgaps : detectedGapsOf xData (some c)
          = detectGaps xData (resolvedThreshold c) := by
        simp [detectedGapsOf, hen]
      have hlts : ∀ g' ∈ detectedGapsOf xData (some c), g'.startX < g'.endX := by
        rw [hgaps]
        intro g' hg'
        exact detectGaps_startX_lt_endX hsort hg'
      have hpws : (detectedGapsOf xData (some c)).Pairwise
          (fun g g' => g.endX ≤ g'.startX) := by
        rw [hgaps]
        exact detectGaps_pairwise hsort _
      have hchain : (segmentsOf (xRangeOf xData)
          (detectedGapsOf xData (some c))).Chain' (fun a b => a.2 < b.1) := by
        rw [hgaps]
        exact (derived_segments_props hsort (resolvedThreshold c)).2
      simp only [createScalingFunctions, if_neg hcond]
      have hr : 0 < (chartArea.width
          - ((detectedGapsOf xData (some c)).length : ℚ) * gapWOf (some c))
          / totalDataTimeSpan (segmentsOf (xRangeOf xData)
            (detectedGapsOf xData (some c))) := div_pos hdw htot
      constructor
      · intro v hv1 hv2
        show fwScaleX (xRangeOf xData) chartArea _ _ v = chartArea.x
        rw [fwScaleX, if_neg (ne_of_gt htot)]
        refine fwScaleXAux_notMem _ _ _ _ v 0 0 ?_
        intro p hp
        rcases segmentsFrom_vs_gaps (xRangeOf xData).max
            (detectedGapsOf xData (some c)) (xRangeOf xData).min
            hlts hpws p hp g hg with h | h
        · rintro ⟨-, h2⟩
          linarith
        · rintro ⟨h1, -⟩
          linarith
      · intro coord hlo hhi
        show fwUnscaleX (xRangeOf xData) chartArea _ _ coord = g.startX
        rw [fwUnscaleX, if_neg (ne_of_gt htot)]
        rw [fwScaleX, if_neg (ne_of_gt htot)] at hlo hhi
        simp only [segmentsOf] at hlo hhi ⊢
        have hr2 : 0 < (chartArea.width
            - ((detectedGapsOf xData (some c)).length : ℚ) * gapWOf (some c))
            / totalDataTimeSpan (segmentsFrom (xRangeOf xData).min
              (detectedGapsOf xData (some c)) (xRangeOf xData).max) := by
          simpa [segmentsOf] using hr
        refine fw_band_aux _ (gapWOf (some c)) chartArea.x
          (xRangeOf xData).min (xRangeOf xData).max hr2 hgw
          (detectedGapsOf xData (some c)) (xRangeOf xData).min 0 0
          hpos hchain hlts hpws g hg (coord - chartArea.x) ?_ ?_
        · linarith
        · linarith
    · exact absurd (by simp [detectedGapsOf, hen] : detectedGapsOf xData
        (some c) = []) hne

/-- Counterexample to C3 as stated: with data `[0,1,2,10,11,12]` the detected
gap runs from 2 to 10 and its screen start is `scaleX 2 = 30`, but `scaleX 5`
(a value strictly inside the gap) returns the rectangle's left edge `0`, not
`30`. -/
theorem fixedWidth_gap_mapping_counterexample :
    ((createScalingFunctions [0, 1, 2, 10, 11, 12]
        (some ⟨true, none, true, none⟩) ⟨0, 0, 100, 100⟩).scaleX 5 = 0)
    ∧ ((createScalingFunctions [0, 1, 2, 10, 11, 12]
        (some ⟨true, none, true, none⟩) ⟨0, 0, 100, 100⟩).scaleX 2 = 30)
    ∧ ((2 : ℚ) < 5 ∧ (5 : ℚ) < 10)
    ∧ (0 : ℚ) ≠ 30 := by
  norm_num [createScalingFunctions, detectedGapsOf, resolvedThreshold,
    DEFAULT_GAP_THRESHOLD, detectGaps, detectGapsAux, calculateExpectedInterval,
    intervalsOf, List.insertionSort, List.orderedInsert, fwFlagOf, gapWOf,
    resolvedFixedWidth, xRangeOf, listMin, listMax, List.foldl, min_def,
    max_def, segmentsOf, segmentsFrom, totalDataTimeSpan, fwScaleX,
    fwScaleXAux, stdScaleX]

/-- Witness for the amended C3 on concrete data: the gap-interior value 5 maps
to the left edge, and the band coordinate 50 un-maps to the gap start 2. -/
theorem fixedWidth_gap_mapping_witness :
    ((createScalingFunctions [0, 1, 2, 10, 11, 12]
        (some ⟨true, none, true, none⟩) ⟨0, 0, 100, 100⟩).scaleX 5
      = (0 : ℚ))
    ∧ ((createScalingFunctions [0, 1, 2, 10, 11, 12]
        (some ⟨true, none, true, none⟩) ⟨0, 0, 100, 100⟩).unscaleX 50
      = (2 : ℚ)) := by
  have h := fixedWidth_gap_mapping [0, 1, 2, 10, 11, 12]
    (some ⟨true, none, true, none⟩) ⟨0, 0, 100, 100⟩
    rfl
    (by norm_num [detectedGapsOf, resolvedThreshold, DEFAULT_GAP_THRESHOLD,
      detectGaps, detectGapsAux, calculateExpectedInterval, intervalsOf,
      List.insertionSort, List.orderedInsert])
    (by decide)
    (by norm_num [detectedGapsOf, resolvedThreshold, DEFAULT_GAP_THRESHOLD,
      detectGaps, detectGapsAux, calculateExpectedInterval, intervalsOf,
      List.insertionSort, List.orderedInsert, gapWOf, resolvedFixedWidth])
    (by norm_num [gapWOf, resolvedFixedWidth])
    (by norm_num [detectedGapsOf, resolvedThreshold, DEFAULT_GAP_THRESHOLD,
      detectGaps, detectGapsAux, calculateExpectedInterval, intervalsOf,
      List.insertionSort, List.orderedInsert, segmentsOf, segmentsFrom,
      xRangeOf, listMin, listMax, List.foldl, min_def, max_def])
    ⟨2, 3, 2, 10, 8⟩
    (by norm_num [detectedGapsOf, resolvedThreshold, DEFAULT_GAP_THRESHOLD,
      detectGaps, detectGapsAux, calculateExpectedInterval, intervalsOf,
      List.insertionSort, List.orderedInsert])
  exact ⟨h.1 5 (by norm_num) (by norm_num),
    h.2 50
      (by norm_num [createScalingFunctions, detectedGapsOf, resolvedThreshold,
        DEFAULT_GAP_THRESHOLD, detectGaps, detectGapsAux,
        calculateExpectedInterval, intervalsOf, List.insertionSort,
        List.orderedInsert, fwFlagOf, gapWOf, resolvedFixedWidth, xRangeOf,
        listMin, listMax, List.foldl, min_def, max_def, segmentsOf,
        segmentsFrom, totalDataTimeSpan, fwScaleX, fwScaleXAux])
      (by norm_num [createScalingFunctions, detectedGapsOf, resolvedThreshold,
        DEFAULT_GAP_THRESHOLD, detectGaps, detectGapsAux,
        calculateExpectedInterval, intervalsOf, List.insertionSort,
        List.orderedInsert, fwFlagOf, gapWOf, resolvedFixedWidth, xRangeOf,
        listMin, listMax, List.foldl, min_def, max_def, segmentsOf,
        segmentsFrom, totalDataTimeSpan, fwScaleX, fwScaleXAux])⟩

/-! ## Binary search (src/src/utils/types.ts `binarySearch` and the internal
search of src/src/hooks/useInterpolation.ts) -/

/-- `Number.EPSILON = 2⁻⁵²`, the exactness tolerance of the generic
`binarySearch`. -/
def numberEpsilon : ℚ := 1 / 2 ^ 52

/-- `{exact?, lower, upper}` (`BinarySearchResult` in src/src/utils/types.ts). -/
structure BSResult where
  exact : Option ℕ
  lower : ℕ
  upper : ℕ
deriving Repr, DecidableEq

/-- Outcome of the shared `while (left <= right)` loop: an exact hit, or the
final `left` and `right + 1` values.  The JS `right` (an integer that can
transiently reach `-1`) is carried as the natural number `right + 1`. -/
inductive BSLoopOut where
  | exactAt (i : ℕ)
  | done (left rightPlus1 : ℕ)
deriving Repr, DecidableEq

/-- The `while (left <= right)` loop common to the generic `binarySearch` and
the interpolation hook's internal search, abstracted over the exactness
tolerance `eps` (`Number.EPSILON` resp. `0.5`).  `rp1` carries `right + 1`, so
the loop condition `left <= right` is `left + 1 ≤ rp1`, the midpoint
`⌊(left + right) / 2⌋` is `(left + (rp1 - 1)) / 2`, and `right := mid - 1`
is `rp1 := mid`.  The `fuel` argument bounds the bracket size
`right + 1 - left`, which shrinks by at least one per iteration, so zero fuel
is reached only once `left > right` — exactly the loop's exit condition. -/
def bsLoopAux (vals : List ℚ) (target eps : ℚ) : ℕ → ℕ → ℕ → BSLoopOut
  | left, rp1, 0 => .done left rp1
  | left, rp1, fuel + 1 =>
    if left + 1 ≤ rp1 then
      let mid := (left + (rp1 - 1)) / 2
      let midValue := vals.getD mid 0
      if |midValue - target| < eps then .exactAt mid
      else if midValue < target then
        bsLoopAux vals target eps (mid + 1) rp1 fuel
      else bsLoopAux vals target eps left mid fuel
    else .done left rp1

/-- The generic `binarySearch` utility (src/src/utils/types.ts): edge cases
first, then the loop with `Number.EPSILON` tolerance, finally the clamped
`lower = max 0 right` and `upper = min (length - 1) left` bracket (with
`max 0 right` written as the truncated `rp1 - 1`).  The loop runs with fuel
`array.length`, the exact initial bracket size. -/
def binarySearch {α : Type} (array : List α) (target : ℚ)
    (getValue : α → ℚ) : BSResult :=
  let vals := array.map getValue
  if array.length = 0 then ⟨none, 0, 0⟩
  else
    let last := array.length - 1
    if target ≤ vals.getD 0 0 then ⟨some 0, 0, 0⟩
    else if vals.getD last 0 ≤ target then ⟨some last, last, last⟩
    else
      match bsLoopAux vals target numberEpsilon 0 array.length
          array.length with
      | .exactAt i => ⟨some i, i, i⟩
      | .done l rp1 => ⟨none, rp1 - 1, min (array.length - 1) l⟩

/-- The interpolation hook's internal binary search over scaled x positions
with tolerance `0.5`; returns `null` for empty data. -/
def interpBinarySearch (scaledData : List ScaledPoint) (xPosition : ℚ) :
    Option BSResult :=
  if scaledData.length = 0 then none
  else
    let vals := scaledData.map (fun p => p.x)
    let last := scaledData.length - 1
    if xPosition ≤ vals.getD 0 0 then some ⟨some 0, 0, 0⟩
    else if vals.getD last 0 ≤ xPosition then some ⟨some last, last, last⟩
    else
      match bsLoopAux vals xPosition (1 / 2) 0 scaledData.length
          scaledData.length with
      | .exactAt i => some ⟨some i, i, i⟩
      | .done l rp1 => some ⟨none, rp1 - 1, min (scaledData.length - 1) l⟩

/-- `interpolateAtX` (src/src/hooks/useInterpolation.ts): exact hits return the
point's original values; otherwise linear interpolation between the bracketing
pair, reporting the nearer side's index.  The JS `p1 === p2` reference check is
index equality, as the scaled points are freshly allocated per index. -/
def interpolateAtX (scaledData : List ScaledPoint) (xPosition : ℚ) :
    Option (ℚ × ℚ × ℕ) :=
  match interpBinarySearch scaledData xPosition with
  | none => none
  | some result =>
    match result.exact with
    | some e =>
      let point := scaledData.getD e default
      some (point.originalX, point.originalY, point.index)
    | none =>
      let p1 := scaledData.getD result.lower default
      let p2 := scaledData.getD result.upper default
      if result.lower = result.upper then
        some (p1.originalX, p1.originalY, p1.index)
      else
        let ratio := (xPosition - p1.x) / (p2.x - p1.x)
        some (p1.originalX + (p2.originalX - p1.originalX) * ratio,
          p1.originalY + (p2.originalY - p1.originalY) * ratio,
          if ratio < 1 / 2 then p1.index else p2.index)

/-! ## Verification of the search loop -/

theorem bsLoopAux_done_invariant (vals : List ℚ) (target eps : ℚ)
    (hs : vals.Sorted (· < ·)) (heps : 0 < eps) :
    ∀ (fuel left rp1 l' rp1' : ℕ),
      rp1 - left ≤ fuel →
      rp1 ≤ vals.length →
      left ≤ rp1 →
      (∀ i, i < vals.length → i < left → vals.getD i 0 < target) →
      (∀ i, i < vals.length → rp1 ≤ i → target < vals.getD i 0) →
      bsLoopAux vals target eps left rp1 fuel = .done l' rp1' →
      l' = rp1' ∧ left ≤ l' ∧ rp1' ≤ rp1
        ∧ (∀ i, i < vals.length → i < l' → vals.getD i 0 < target)
        ∧ (∀ i, i < vals.length → l' ≤ i → target < vals.getD i 0) := by
  intro fuel
  induction fuel with
  | zero =>
    intro left rp1 l' rp1' hmeas hlen hlr hlow hhigh heq
    simp only [bsLoopAux] at heq
    injection heq with h1 h2
    refine ⟨by omega, by omega, by omega, ?_, ?_⟩
    · intro i hi hil
      exact hlow i hi (by omega)
    · intro i hi hge
      exact hhigh i hi (by omega)
  | succ fuel ih =>
    intro left rp1 l' rp1' hmeas hlen hlr hlow hhigh heq
    simp only [bsLoopAux] at heq
    by_cases hc : left + 1 ≤ rp1
    · rw [if_pos hc] at heq
      set mid := (left + (rp1 - 1)) / 2 with hmid
      have hb1 : left ≤ mid := by omega
      have hb2 : mid ≤ rp1 - 1 := by omega
      have hmlen : mid < vals.length := by omega
      by_cases hex : |vals.getD mid 0 - target| < eps
      · rw [if_pos hex] at heq
        exact absurd heq (by simp)
      · rw [if_neg hex] at heq
        by_cases hlt : vals.getD mid 0 < target
        · rw [if_pos hlt] at heq
          refine ih (mid + 1) rp1 l' rp1' (by omega) hlen (by omega) ?_ hhigh
            heq |>.imp id (fun h => ⟨by omega, h.2.1, h.2.2⟩)
          intro i hi hilt
          exact lt_of_le_of_lt (sorted_getD_le hs (by omega) hmlen) hlt
        · rw [if_neg hlt] at heq
          have hge : target ≤ vals.getD mid 0 := not_lt.mp hlt
          have hgt : target < vals.getD mid 0 := by
            rcases eq_or_lt_of_le hge with heqv | h
            · exfalso
              apply hex
              rw [← heqv]
              simpa using heps
            · exact h
          refine ih left mid l' rp1' (by omega) (by omega) (by omega) hlow ?_
            heq |>.imp id (fun h => ⟨h.1, by omega, h.2.2⟩)
          intro i hi hge2
          exact lt_of_lt_of_le hgt (sorted_getD_le hs hge2 hi)
    · rw [if_neg hc] at heq
      injection heq with h1 h2
      refine ⟨by omega, by omega, by omega, ?_, ?_⟩
      · intro i hi hil
        exact hlow i hi (by omega)
      · intro i hi hge
        exact hhigh i hi (by omega)

theorem bsLoopAux_no_exact (vals : List ℚ) (target eps : ℚ)
    (hsep : ∀ i, i < vals.length → eps ≤ |vals.getD i 0 - target|) :
    ∀ (fuel left rp1 : ℕ), rp1 ≤ vals.length →
      ∀ k, bsLoopAux vals target eps left rp1 fuel ≠ .exactAt k := by
  intro fuel
  induction fuel with
  | zero => intro left rp1 _ k heq; exact absurd heq (by simp [bsLoopAux])
  | succ fuel ih =>
    intro left rp1 hlen k heq
    simp only [bsLoopAux] at heq
    by_cases hc : left + 1 ≤ rp1
    · rw [if_pos hc] at heq
      set mid := (left + (rp1 - 1)) / 2 with hmid
      have hmlen : mid < vals.length := by omega
      by_cases hex : |vals.getD mid 0 - target| < eps
      · exact absurd hex (not_lt.mpr (hsep mid hmlen))
      · rw [if_neg hex] at heq
        by_cases hlt : vals.getD mid 0 < target
        · rw [if_pos hlt] at heq
          exact ih (mid + 1) rp1 hlen k heq
        · rw [if_neg hlt] at heq
          exact ih left mid (by omega) k heq
    · rw [if_neg hc] at heq
      exact absurd heq (by simp)

theorem bsLoopAux_exact (vals : List ℚ) (target eps : ℚ)
    (hs : vals.Sorted (· < ·)) (heps : 0 < eps) (k : ℕ)
    (hk : k < vals.length) (hkt : vals.getD k 0 = target)
    (hsep : ∀ i, i < vals.length → i ≠ k → eps ≤ |vals.getD i 0 - target|) :
    ∀ (fuel left rp1 : ℕ),
      rp1 - left ≤ fuel → rp1 ≤ vals.length → left ≤ k → k + 1 ≤ rp1 →
      bsLoopAux vals target eps left rp1 fuel = .exactAt k := by
  intro fuel
  induction fuel with
  | zero => intro left rp1 hmeas _ hlk hkr; omega
  | succ fuel ih =>
    intro left rp1 hmeas hlen hlk hkr
    have hc : left + 1 ≤ rp1 := by omega
    simp only [bsLoopAux, if_pos hc]
    set mid := (left + (rp1 - 1)) / 2 with hmid
    have hb1 : left ≤ mid := by omega
    have hb2 : mid ≤ rp1 - 1 := by omega
    have hmlen : mid < vals.length := by omega
    by_cases hex : |vals.getD mid 0 - target| < eps
    · rw [if_pos hex]
      have : mid = k := by
        by_contra hne
        exact absurd hex (not_lt.mpr (hsep mid hmlen hne))
      rw [this]
    · rw [if_neg hex]
      by_cases hlt : vals.getD mid 0 < target
      · rw [if_pos hlt]
        have hmk : mid < k := by
          by_contra hge
          push_neg at hge
          exact absurd (lt_of_le_of_lt (hkt ▸ sorted_getD_le hs hge hmlen :
            target ≤ vals.getD mid 0) hlt) (lt_irrefl _)
        exact ih (mid + 1) rp1 (by omega) hlen (by omega) hkr
      · rw [if_neg hlt]
        have hgt : target < vals.getD mid 0 := by
          rcases eq_or_lt_of_le (not_lt.mp hlt) with heqv | h
          · exfalso
            apply hex
            rw [← heqv]
            simpa using heps
          · exact h
        have hkm : k < mid := by
          by_contra hge
          push_neg at hge
          have : vals.getD mid 0 ≤ target := hkt ▸ sorted_getD_le hs hge hk
          exact absurd (lt_of_lt_of_le hgt this) (lt_irrefl _)
        exact ih left mid (by omega) (by omega) hlk (by omega)

theorem getD_map_x (pts : List ScaledPoint) {i : ℕ} (h : i < pts.length) :
    (pts.map (fun p => p.x)).getD i 0 = (pts.getD i default).x := by
  simp [List.getD_eq_getElem?_getD, List.getElem?_map,
    List.getElem?_eq_getElem h]

/-- C4 (corrected, amended): the generic `binarySearch` contract for arrays
sorted strictly ascending under the value extractor: empty input yields
`{lower := 0, upper := 0}` with no exact field; a target at or below the first
value yields `{exact := 0, lower := 0, upper := 0}`; a target at or above the
last value yields all three fields equal to the last index; an exact interior
match yields `exact = lower = upper` at the matching index PROVIDED the target
is at distance at least `Number.EPSILON` from every other element; and a
target strictly between two consecutive elements yields no exact field with
`lower` the smaller element's index and `upper = lower + 1` PROVIDED the
target is at distance at least `Number.EPSILON` from every element.  Without
the proviso the epsilon comparison can report a near hit as exact, see
`binarySearch_contract_counterexample`. -/
theorem binarySearch_contract {α : Type} (array : List α) (getValue : α → ℚ)
    (target : ℚ) (hs : (array.map getValue).Sorted (· < ·)) :
    (array = [] → binarySearch array target getValue = ⟨none, 0, 0⟩)
    ∧ (array ≠ [] → target ≤ (array.map getValue).getD 0 0 →
        binarySearch array target getValue = ⟨some 0, 0, 0⟩)
    ∧ (array ≠ [] →
        (array.map getValue).getD (array.length - 1) 0 ≤ target →
        binarySearch array target getValue
          = ⟨some (array.length - 1), array.length - 1, array.length - 1⟩)
    ∧ (∀ k, 0 < k → k < array.length - 1 →
        (array.map getValue).getD k 0 = target →
        (∀ i, i < array.length → i ≠ k →
          numberEpsilon ≤ |(array.map getValue).getD i 0 - target|) →
        binarySearch array target getValue = ⟨some k, k, k⟩)
    ∧ (∀ j, j + 1 ≤ array.length - 1 →
        (array.map getValue).getD j 0 < target →
        target < (array.map getValue).getD (j + 1) 0 →
        (∀ i, i < array.length →
          numberEpsilon ≤ |(array.map getValue).getD i 0 - target|) →
        binarySearch array target getValue = ⟨none, j, j + 1⟩) := by
  have hlen : (array.map getValue).length = array.length := List.length_map _ _
  have heps : (0 : ℚ) < numberEpsilon := by norm_num [numberEpsilon]
  refine ⟨?_, ?_, ?_, ?_, ?_⟩
  · intro h
    subst h
    simp [binarySearch]
  · intro hne h2
    have h0 : ¬array.length = 0 := fun h => hne (List.length_eq_zero.mp h)
    simp only [binarySearch, if_neg h0, if_pos h2]
  · intro hne h3
    have h0 : ¬array.length = 0 := fun h => hne (List.length_eq_zero.mp h)
    by_cases hfst : target ≤ (array.map getValue).getD 0 0
    · have hn1 : array.length = 1 := by
        by_contra hn
        have h2n : 2 ≤ array.length := by omega
        have := sorted_getD_lt hs (i := 0) (j := array.length - 1)
          (by omega) (by omega)
        linarith
      simp only [binarySearch, if_neg h0, if_pos hfst, hn1]
      norm_num
    · simp only [binarySearch, if_neg h0, if_neg hfst, if_pos h3]
  · intro k hk0 hkn hkt hsep
    have h0 : ¬array.length = 0 := by omega
    have hklen : k < (array.map getValue).length := by omega
    have hfst : ¬target ≤ (array.map getValue).getD 0 0 := by
      push_neg
      exact hkt ▸ sorted_getD_lt hs hk0 hklen
    have hlast : ¬(array.map getValue).getD (array.length - 1) 0 ≤ target := by
      push_neg
      exact hkt ▸ sorted_getD_lt hs hkn (by omega)
    have hloop := bsLoopAux_exact (array.map getValue) target numberEpsilon hs
      heps k hklen hkt (fun i hi => hsep i (by omega)) array.length 0
      array.length (by omega) (by omega) (by omega) (by omega)
    simp only [binarySearch, if_neg h0, if_neg hfst, if_neg hlast, hloop]
  · intro j hj hjlt hjgt hsep
    have h0 : ¬array.length = 0 := by omega
    have hjlen : j < (array.map getValue).length := by omega
    have hfst : ¬target ≤ (array.map getValue).getD 0 0 := by
      push_neg
      exact lt_of_le_of_lt (sorted_getD_le hs (Nat.zero_le j) hjlen) hjlt
    have hlast : ¬(array.map getValue).getD (array.length - 1) 0 ≤ target := by
      push_neg
      exact lt_of_lt_of_le hjgt (sorted_getD_le hs (by omega) (by omega))
    rcases hout : bsLoopAux (array.map getValue) target numberEpsilon 0
        array.length array.length with k | ⟨l', rp1'⟩
    · exact absurd hout (bsLoopAux_no_exact (array.map getValue) target
        numberEpsilon (fun i hi => hsep i (by omega)) array.length 0
        array.length (by omega) k)
    · obtain ⟨hlr, -, -, hlowb, hhighb⟩ := bsLoopAux_done_invariant
        (array.map getValue) target numberEpsilon hs heps array.length 0
        array.length l' rp1' (by omega) (by omega) (by omega)
        (fun i _ hi0 => absurd hi0 (Nat.not_lt_zero i))
        (fun i hi hni => absurd (by omega : i < i) (lt_irrefl i)) hout
      have hjl : j < l' := by
        by_contra hle
        push_neg at hle
        exact absurd (hhighb j hjlen hle) (not_lt.mpr hjlt.le)
      have hlj : l' ≤ j + 1 := by
        by_contra hgt
        push_neg at hgt
        exact absurd (hlowb (j + 1) (by omega) hgt) (not_lt.mpr hjgt.le)
      have hl : l' = j + 1 := by omega
      simp only [binarySearch, if_neg h0, if_neg hfst, if_neg hlast, hout]
      have hmin : min (array.length - 1) l' = j + 1 := by omega
      rw [hmin]
      have hrp : rp1' - 1 = j := by omega
      rw [hrp]

/-- Counterexample to C4 as stated: in `[0, 1]` the target `2⁻⁶⁰` is strictly
between the consecutive elements `0` and `1`, yet the search reports an exact
hit at index 0 because `|0 - 2⁻⁶⁰| < Number.EPSILON`. -/
theorem binarySearch_contract_counterexample :
    (0 : ℚ) < 1 / 2 ^ 60 ∧ (1 : ℚ) / 2 ^ 60 < 1
      ∧ binarySearch [(0 : ℚ), 1] (1 / 2 ^ 60) id = ⟨some 0, 0, 0⟩
      ∧ (BSResult.mk (some 0) 0 0 ≠ ⟨none, 0, 1⟩) := by
  refine ⟨by norm_num, by norm_num, ?_, by simp⟩
  norm_num [binarySearch, bsLoopAux, numberEpsilon, abs_lt]

/-- Witness for the amended C4 on the spec's example array. -/
theorem binarySearch_contract_witness :
    binarySearch ([] : List ℚ) 6 id = ⟨none, 0, 0⟩
    ∧ binarySearch [(1 : ℚ), 3, 5, 7, 9, 11, 13, 15] 0 id = ⟨some 0, 0, 0⟩
    ∧ binarySearch [(1 : ℚ), 3, 5, 7, 9, 11, 13, 15] 20 id = ⟨some 7, 7, 7⟩
    ∧ binarySearch [(1 : ℚ), 3, 5, 7, 9, 11, 13, 15] 7 id = ⟨some 3, 3, 3⟩
    ∧ binarySearch [(1 : ℚ), 3, 5, 7, 9, 11, 13, 15] 6 id = ⟨none, 2, 3⟩ := by
  have hs : (([(1 : ℚ), 3, 5, 7, 9, 11, 13, 15]).map id).Sorted (· < ·) := by
    decide
  have h7 := binarySearch_contract [(1 : ℚ), 3, 5, 7, 9, 11, 13, 15] id 7 hs
  have h6 := binarySearch_contract [(1 : ℚ), 3, 5, 7, 9, 11, 13, 15] id 6 hs
  have h0 := binarySearch_contract [(1 : ℚ), 3, 5, 7, 9, 11, 13, 15] id 0 hs
  have h20 := binarySearch_contract [(1 : ℚ), 3, 5, 7, 9, 11, 13, 15] id 20 hs
  have hE := binarySearch_contract ([] : List ℚ) id 6 (by decide)
  refine ⟨hE.1 rfl, h0.2.1 (by simp) (by norm_num), ?_, ?_, ?_⟩
  · have := h20.2.2.1 (by simp) (by norm_num)
    simpa using this
  · have := h7.2.2.2.1 3 (by norm_num) (by norm_num) (by norm_num) ?_
    · simpa using this
    · intro i hi hne
      have hi8 : i < 8 := by simpa using hi
      interval_cases i <;>
        norm_num [numberEpsilon, abs_of_nonneg, abs_of_nonpos] <;> omega
  · have := h6.2.2.2.2 2 (by norm_num) (by norm_num) (by norm_num) ?_
    · simpa using this
    · intro i hi
      have hi8 : i < 8 := by simpa using hi
      interval_cases i <;>
        norm_num [numberEpsilon, abs_of_nonneg, abs_of_nonpos]

/-- C5: the `interpolateAtX` contract over a non-empty list of scaled points
strictly ascending by screen x.  Empty input returns `null`; a query at or
before the first point's screen x returns that point's original values and
index; a query at or beyond the last point's returns the last point's; and in
the interior, whenever the binary search reports no exact hit, the result is
the linear interpolation of originalX and originalY by the fractional position
of the query between the bracketing points' screen x-coordinates (which are
consecutive and straddle the query), with the lower neighbour's index when the
ratio is below one half and the upper neighbour's otherwise. -/
theorem interpolateAtX_spec :
    (∀ q : ℚ, interpolateAtX [] q = none)
    ∧ (∀ (pts : List ScaledPoint) (q : ℚ),
        pts ≠ [] → (pts.map (fun p => p.x)).Sorted (· < ·) →
        (q ≤ (pts.getD 0 default).x →
          interpolateAtX pts q = some ((pts.getD 0 default).originalX,
            (pts.getD 0 default).originalY, (pts.getD 0 default).index))
        ∧ ((pts.getD (pts.length - 1) default).x ≤ q →
          interpolateAtX pts q
            = some ((pts.getD (pts.length - 1) default).originalX,
              (pts.getD (pts.length - 1) default).originalY,
              (pts.getD (pts.length - 1) default).index))
        ∧ (∀ r : BSResult,
            (pts.getD 0 default).x < q →
            q < (pts.getD (pts.length - 1) default).x →
            interpBinarySearch pts q = some r →
            r.exact = none →
            r.upper = r.lower + 1
              ∧ (pts.getD r.lower default).x < q
              ∧ q < (pts.getD r.upper default).x
              ∧ interpolateAtX pts q
                = some ((pts.getD r.lower default).originalX
                    + ((pts.getD r.upper default).originalX
                      - (pts.getD r.lower default).originalX)
                      * ((q - (pts.getD r.lower default).x)
                        / ((pts.getD r.upper default).x
                          - (pts.getD r.lower default).x)),
                  (pts.getD r.lower default).originalY
                    + ((pts.getD r.upper default).originalY
                      - (pts.getD r.lower default).originalY)
                      * ((q - (pts.getD r.lower default).x)
                        / ((pts.getD r.upper default).x
                          - (pts.getD r.lower default).x)),
                  if (q - (pts.getD r.lower default).x)
                      / ((pts.getD r.upper default).x
                        - (pts.getD r.lower default).x) < 1 / 2
                  then (pts.getD r.lower default).index
                  else (pts.getD r.upper default).index))) := by
  constructor
  · intro q
    rfl
  · intro pts q hne hs
    have h0 : ¬pts.length = 0 := fun h => hne (List.length_eq_zero.mp h)
    have hmlen : (pts.map (fun p => p.x)).length = pts.length :=
      List.length_map _ _
    refine ⟨?_, ?_, ?_⟩
    · intro hq
      have hq' : q ≤ (pts.map (fun p => p.x)).getD 0 0 := by
        rw [getD_map_x pts (by omega)]
        exact hq
      simp only [interpolateAtX, interpBinarySearch, if_neg h0, if_pos hq']
    · intro hq
      by_cases hfst : q ≤ (pts.map (fun p => p.x)).getD 0 0
      · have hn1 : pts.length = 1 := by
          by_contra hn
          have h2n : 2 ≤ pts.length := by omega
          have hlt := sorted_getD_lt hs (i := 0) (j := pts.length - 1)
            (by omega) (by omega)
          rw [getD_map_x pts (by omega), getD_map_x pts (by omega)] at hlt
          rw [getD_map_x pts (by omega)] at hfst
          linarith
        simp only [interpolateAtX, interpBinarySearch, if_neg h0,
          if_pos hfst, hn1]
        norm_num
      · have hq' : (pts.map (fun p => p.x)).getD (pts.length - 1) 0 ≤ q := by
          rw [getD_map_x pts (by omega)]
          exact hq
        simp only [interpolateAtX, interpBinarySearch, if_neg h0,
          if_neg hfst, if_pos hq']
    · intro r hint1 hint2 hsearch hexact
      have heps : (0 : ℚ) < 1 / 2 := by norm_num
      have hfst : ¬q ≤ (pts.map (fun p => p.x)).getD 0 0 := by
        push_neg
        rw [getD_map_x pts (by omega)]
        exact hint1
      have hlast : ¬(pts.map (fun p => p.x)).getD (pts.length - 1) 0 ≤ q := by
        push_neg
        rw [getD_map_x pts (by omega)]
        exact hint2
      simp only [interpolateAtX, interpBinarySearch, if_neg h0, if_neg hfst,
        if_neg hlast] at hsearch ⊢
      cases hout : bsLoopAux (pts.map fun p => p.x) q (1 / 2) 0
          pts.length pts.length with
      | exactAt k =>
        rw [hout] at hsearch
        obtain rfl := (Option.some_inj.mp hsearch)
        exact absurd hexact (by simp)
      | done l' rp1' =>
        rw [hout] at hsearch
        obtain rfl := (Option.some_inj.mp hsearch)
        obtain ⟨hlr, -, -, hlowb, hhighb⟩ := bsLoopAux_done_invariant
          (pts.map fun p => p.x) q (1 / 2) hs heps pts.length 0
          pts.length l' rp1' (by omega) (by omega) (by omega)
          (fun i _ hi0 => absurd hi0 (Nat.not_lt_zero i))
          (fun i hi hni => absurd (by omega : i < i) (lt_irrefl i)) hout
        have hl1 : 1 ≤ l' := by
          by_contra hl0
          push_neg at hl0
          have := hhighb 0 (by omega) (by omega)
          rw [getD_map_x pts (by omega)] at this
          linarith
        have hln : l' ≤ pts.length - 1 := by
          by_contra hgt
          push_neg at hgt
          have := hlowb (pts.length - 1) (by omega) (by omega)
          rw [getD_map_x pts (by omega)] at this
          linarith
        have hup : min (pts.length - 1) l' = l' := by omega
        have hlow : (rp1' - 1) + 1 = l' := by omega
        have hb1 : (pts.getD (rp1' - 1) default).x < q := by
          have := hlowb (rp1' - 1) (by omega) (by omega)
          rwa [getD_map_x pts (by omega)] at this
        have hb2 : q < (pts.getD (min (pts.length - 1) l') default).x := by
          have := hhighb l' (by omega) (by omega)
          rw [getD_map_x pts (by omega)] at this
          rwa [hup]
        refine ⟨by simp [hup]; omega, hb1, hb2, ?_⟩
        have hneq : ¬(rp1' - 1 = min (pts.length - 1) l') := by omega
        simp only [if_neg hneq]

/-- Witness for C5 on concrete data: clamping on both sides, empty input, and
midpoint interpolation between `(x=200, y=20)` and `(x=300, y=30)`. -/
theorem interpolateAtX_spec_witness :
    interpolateAtX [] 15 = none
    ∧ interpolateAtX [⟨0, 0, 100, 10, 0⟩, ⟨10, 5, 200, 20, 1⟩,
        ⟨20, 9, 300, 30, 2⟩] (-1) = some (100, 10, 0)
    ∧ interpolateAtX [⟨0, 0, 100, 10, 0⟩, ⟨10, 5, 200, 20, 1⟩,
        ⟨20, 9, 300, 30, 2⟩] 25 = some (300, 30, 2)
    ∧ interpolateAtX [⟨0, 0, 100, 10, 0⟩, ⟨10, 5, 200, 20, 1⟩,
        ⟨20, 9, 300, 30, 2⟩] 15 = some (250, 25, 2) := by
  have h := interpolateAtX_spec
  have hmain := h.2 [⟨0, 0, 100, 10, 0⟩, ⟨10, 5, 200, 20, 1⟩,
    ⟨20, 9, 300, 30, 2⟩] 15 (by simp) (by decide)
  have hlo := h.2 [⟨0, 0, 100, 10, 0⟩, ⟨10, 5, 200, 20, 1⟩,
    ⟨20, 9, 300, 30, 2⟩] (-1) (by simp) (by decide)
  have hhi := h.2 [⟨0, 0, 100, 10, 0⟩, ⟨10, 5, 200, 20, 1⟩,
    ⟨20, 9, 300, 30, 2⟩] 25 (by simp) (by decide)
  refine ⟨h.1 15, ?_, ?_, ?_⟩
  · have := hlo.1 (by norm_num)
    simpa using this
  · have := hhi.2.1 (by norm_num)
    simpa using this
  · have hsearch : interpBinarySearch [⟨0, 0, 100, 10, 0⟩,
        ⟨10, 5, 200, 20, 1⟩, ⟨20, 9, 300, 30, 2⟩] 15
        = some ⟨none, 1, 2⟩ := by
      norm_num [interpBinarySearch, bsLoopAux, abs_lt]
    have := hmain.2.2 ⟨none, 1, 2⟩ (by norm_num) (by norm_num) hsearch rfl
    have hformula := this.2.2.2
    rw [hformula]
    norm_num

/-- C10: the interpolation engine's internal binary search treats any query
within 0.5 pixels of an examined point's screen x as an exact hit.  First
conjunct: for an interior query within 0.5 of the first probed point (the
midpoint of the full index range), `interpolateAtX` returns that point's
original values unchanged.  Second conjunct: concretely, the two distinct
queries 9.7 and 10.3 (0.6 pixels apart, neither equal to the point's screen
x = 10) both return the same point's values. -/
theorem interp_epsilon_exact :
    (∀ (pts : List ScaledPoint) (q : ℚ),
        (pts.map (fun p => p.x)).Sorted (· < ·) →
        2 ≤ pts.length →
        (pts.getD 0 default).x < q →
        q < (pts.getD (pts.length - 1) default).x →
        |(pts.getD ((0 + (pts.length - 1)) / 2) default).x - q| < 1 / 2 →
        interpolateAtX pts q
          = some ((pts.getD ((0 + (pts.length - 1)) / 2) default).originalX,
              (pts.getD ((0 + (pts.length - 1)) / 2) default).originalY,
              (pts.getD ((0 + (pts.length - 1)) / 2) default).index))
    ∧ (interpolateAtX [⟨0, 0, 100, 10, 0⟩, ⟨10, 5, 200, 20, 1⟩,
          ⟨20, 9, 300, 30, 2⟩] (97 / 10) = some (200, 20, 1)
        ∧ interpolateAtX [⟨0, 0, 100, 10, 0⟩, ⟨10, 5, 200, 20, 1⟩,
          ⟨20, 9, 300, 30, 2⟩] (103 / 10) = some (200, 20, 1)
        ∧ (97 / 10 : ℚ) ≠ 103 / 10
        ∧ |(97 / 10 : ℚ) - 103 / 10| < 1
        ∧ (97 / 10 : ℚ) ≠ 10) := by
  constructor
  · intro pts q hs h2 hint1 hint2 hexact
    have h0 : ¬pts.length = 0 := by omega
    have hfst : ¬q ≤ (pts.map (fun p => p.x)).getD 0 0 := by
      push_neg
      rw [getD_map_x pts (by omega)]
      exact hint1
    have hlast : ¬(pts.map (fun p => p.x)).getD (pts.length - 1) 0 ≤ q := by
      push_neg
      rw [getD_map_x pts (by omega)]
      exact hint2
    obtain ⟨m, hm⟩ : ∃ m, pts.length = m + 1 := ⟨pts.length - 1, by omega⟩
    have hexact' : |(pts.map (fun p => p.x)).getD ((0 + (m + 1 - 1)) / 2) 0
        - q| < 1 / 2 := by
      rw [getD_map_x pts (by omega)]
      rw [hm] at hexact
      exact hexact
    have hcond : 0 + 1 ≤ m + 1 := by omega
    simp only [interpolateAtX, interpBinarySearch, if_neg h0, if_neg hfst,
      if_neg hlast]
    rw [hm]
    simp only [bsLoopAux, if_pos hcond, if_pos hexact']
  · refine ⟨?_, ?_, by norm_num, by norm_num [abs_lt], by norm_num⟩
    · norm_num [interpolateAtX, interpBinarySearch, bsLoopAux, abs_lt]
    · norm_num [interpolateAtX, interpBinarySearch, bsLoopAux, abs_lt]

/-- Witness for C10's general conjunct on a three-point list with query 9.7,
which is not the middle point's screen x yet returns its values. -/
theorem interp_epsilon_exact_witness :
    interpolateAtX [⟨0, 0, 100, 10, 0⟩, ⟨10, 5, 200, 20, 1⟩,
      ⟨20, 9, 300, 30, 2⟩] (97 / 10) = some (200, 20, 1) := by
  have h := interp_epsilon_exact.1 [⟨0, 0, 100, 10, 0⟩, ⟨10, 5, 200, 20, 1⟩,
    ⟨20, 9, 300, 30, 2⟩] (97 / 10) (by decide) (by norm_num)
    (by norm_num) (by norm_num)
    (by norm_num [abs_lt])
  simpa using h

/-! ## Path generation (src/src/utils/pathGeneration.ts) -/

/-- One instruction of the SVG path mini-language: the string
`"M x y" / "L x y" / "C c1,c1 c2,c2 x,y" / "A rx ry rot large sweep x y" / "Z"`
concatenation is modelled as a list of commands. -/
inductive PathCmd where
  | move (x y : ℚ)
  | line (x y : ℚ)
  | curve (c1x c1y c2x c2y x y : ℚ)
  | arc (rx ry rot largeArc sweep x y : ℚ)
  | close
deriving Repr, DecidableEq

def PathCmd.isMove : PathCmd → Bool
  | .move _ _ => true
  | _ => false

def PathCmd.isLine : PathCmd → Bool
  | .line _ _ => true
  | _ => false

def PathCmd.isCurve : PathCmd → Bool
  | .curve _ _ _ _ _ _ => true
  | _ => false

def PathCmd.isArc : PathCmd → Bool
  | .arc _ _ _ _ _ _ _ => true
  | _ => false

/-- The smoothing method of `LineStyle.smoothing`. -/
inductive Smoothing where
  | none
  | bezier
  | catmullRom
  | cardinal
deriving Repr, DecidableEq

/-- The `LineStyle` fields used by `generatePath`. -/
structure LineStyleCfg where
  smoothing : Option Smoothing
  tension : Option ℚ
deriving Repr, DecidableEq

/-- `lineStyle?.smoothing || 'none'` (every smoothing string is truthy). -/
def smoothingOf (ls : Option LineStyleCfg) : Smoothing :=
  (ls.bind (fun s => s.smoothing)).getD .none

/-- `lineStyle?.tension || 0.3` (`0` is falsy in JS). -/
def tensionOf (ls : Option LineStyleCfg) : ℚ :=
  match ls.bind (fun s => s.tension) with
  | some t => if t = 0 then 3 / 10 else t
  | Option.none => 3 / 10

/-- `[...scaledData].sort((a, b) => a.originalX - b.originalX)`: a stable
ascending sort by `originalX`. -/
def sortByOriginalX (scaledData : List ScaledPoint) : List ScaledPoint :=
  List.insertionSort (fun a b => a.originalX ≤ b.originalX) scaledData

/-- The `gapIndices` set of `generatePath`: start indices of the gaps detected
on the sorted original x values, when gap detection is enabled. -/
def gapIndicesOf (sortedData : List ScaledPoint) (gaps : Option GapConfig) :
    List ℕ :=
  match gaps with
  | some c =>
    if c.enabled then
      (detectGaps (sortedData.map (fun p => p.originalX))
        (resolvedThreshold c)).map (fun g => g.startIndex)
    else []
  | Option.none => []

/-- `calculateBezierControlPoints`. -/
def calculateBezierControlPoints (prev : Option ScaledPoint)
    (current next : ScaledPoint) (following : Option ScaledPoint)
    (tension : ℚ) : (ℚ × ℚ) × (ℚ × ℚ) :=
  let prevPoint := prev.getD current
  let followingPoint := following.getD next
  let tangentX := (followingPoint.x - prevPoint.x) * tension
  let tangentY := (followingPoint.y - prevPoint.y) * tension
  ((current.x + tangentX * (3 / 10), current.y + tangentY * (3 / 10)),
    (next.x - tangentX * (3 / 10), next.y - tangentY * (3 / 10)))

/-- `calculateCatmullRomControlPoints`. -/
def calculateCatmullRomControlPoints (p0 p1 p2 p3 : ScaledPoint)
    (tension : ℚ) : (ℚ × ℚ) × (ℚ × ℚ) :=
  ((p1.x + (p2.x - p0.x) / (6 * tension), p1.y + (p2.y - p0.y) / (6 * tension)),
    (p2.x - (p3.x - p1.x) / (6 * tension), p2.y - (p3.y - p1.y) / (6 * tension)))

/-- `calculateCardinalControlPoints`. -/
def calculateCardinalControlPoints (p0 p1 p2 p3 : ScaledPoint)
    (tension : ℚ) : (ℚ × ℚ) × (ℚ × ℚ) :=
  ((p1.x + tension * (p2.x - p0.x) / 6, p1.y + tension * (p2.y - p0.y) / 6),
    (p2.x - tension * (p3.x - p1.x) / 6, p2.y - tension * (p3.y - p1.y) / 6))

/-- `generateSmoothPath`: move to the first point, then per index a move on a
gap break, a line for `none` smoothing, otherwise a cubic curve whose control
points fall back to the bezier formula at sequence boundaries. -/
def generateSmoothPath (sortedData : List ScaledPoint) (gapIndices : List ℕ)
    (smoothing : Smoothing) (tension : ℚ) : List PathCmd :=
  let pt := fun i => sortedData.getD i default
  .move (pt 0).x (pt 0).y ::
    (List.range' 1 (sortedData.length - 1)).map (fun i =>
      if gapIndices.contains (i - 1) then .move (pt i).x (pt i).y
      else if smoothing = .none then .line (pt i).x (pt i).y
      else
        let prevPrev := if 2 ≤ i then some (pt (i - 2)) else Option.none
        let next := if i < sortedData.length - 1 then some (pt (i + 1))
          else Option.none
        let cps :=
          match smoothing, prevPrev, next with
          | .bezier, _, _ =>
            calculateBezierControlPoints prevPrev (pt (i - 1)) (pt i) next
              tension
          | .catmullRom, some p0, some p3 =>
            calculateCatmullRomControlPoints p0 (pt (i - 1)) (pt i) p3 tension
          | .cardinal, some p0, some p3 =>
            calculateCardinalControlPoints p0 (pt (i - 1)) (pt i) p3 tension
          | _, _, _ =>
            calculateBezierControlPoints prevPrev (pt (i - 1)) (pt i) next
              tension
        .curve cps.1.1 cps.1.2 cps.2.1 cps.2.2 (pt i).x (pt i).y)

/-- `generatePath`: empty for no points; a tiny circle (move + arc) for one
point; otherwise sort by originalX, detect gaps if enabled, and emit a
move/line polyline for `none` smoothing (moving across gap breaks) or the
smooth path. -/
def generatePath (scaledData : List ScaledPoint) (gaps : Option GapConfig)
    (lineStyle : Option LineStyleCfg) : List PathCmd :=
  if scaledData.length = 0 then []
  else if scaledData.length = 1 then
    let point := scaledData.getD 0 default
    [.move (point.x - 1) point.y, .arc 1 1 0 1 0 (point.x + 1) point.y]
  else
    let sortedData := sortByOriginalX scaledData
    let gapIndices := gapIndicesOf sortedData gaps
    let smoothing := smoothingOf lineStyle
    let tension := tensionOf lineStyle
    if smoothing = .none then
      (List.range sortedData.length).map (fun i =>
        let point := sortedData.getD i default
        if i = 0 then .move point.x point.y
        else if gapIndices.contains (i - 1) then .move point.x point.y
        else .line point.x point.y)
    else generateSmoothPath sortedData gapIndices smoothing tension

theorem getD_range_map {β : Type} (n : ℕ) (f : ℕ → β) (d : β) {i : ℕ}
    (h : i < n) : ((List.range n).map f).getD i d = f i := by
  simp [List.getD_eq_getElem?_getD, List.getElem?_map, List.getElem?_range h]

/-- C7: `generatePath` returns the empty path for zero points; for one point a
path containing a move and an arc and no line; and for two or more points with
smoothing `none`, a move-to at the first point of the data sorted ascending by
originalX followed, for each subsequent index, by a move-to where a detected
gap starts at the preceding index and a line-to otherwise, with one command
per point and no curve commands. -/
theorem generatePath_spec :
    (∀ (gaps : Option GapConfig) (ls : Option LineStyleCfg),
        generatePath [] gaps ls = [])
    ∧ (∀ (p : ScaledPoint) (gaps : Option GapConfig)
          (ls : Option LineStyleCfg),
        (generatePath [p] gaps ls).any PathCmd.isMove = true
        ∧ (generatePath [p] gaps ls).any PathCmd.isArc = true
        ∧ (generatePath [p] gaps ls).any PathCmd.isLine = false)
    ∧ (∀ (pts : List ScaledPoint) (gaps : Option GapConfig)
          (ls : Option LineStyleCfg),
        2 ≤ pts.length → smoothingOf ls = .none →
        (generatePath pts gaps ls).getD 0 .close
            = .move ((sortByOriginalX pts).getD 0 default).x
                ((sortByOriginalX pts).getD 0 default).y
        ∧ (∀ i, 1 ≤ i → i < pts.length →
            (generatePath pts gaps ls).getD i .close
              = if (gapIndicesOf (sortByOriginalX pts) gaps).contains (i - 1)
                then .move ((sortByOriginalX pts).getD i default).x
                  ((sortByOriginalX pts).getD i default).y
                else .line ((sortByOriginalX pts).getD i default).x
                  ((sortByOriginalX pts).getD i default).y)
        ∧ (generatePath pts gaps ls).length = pts.length
        ∧ (generatePath pts gaps ls).any PathCmd.isCurve = false) := by
  refine ⟨?_, ?_, ?_⟩
  · intro gaps ls
    rfl
  · intro p gaps ls
    refine ⟨?_, ?_, ?_⟩ <;>
      simp [generatePath, PathCmd.isMove, PathCmd.isArc, PathCmd.isLine]
  · intro pts gaps ls h2 hsm
    have hsl : (sortByOriginalX pts).length = pts.length :=
      List.length_insertionSort _ _
    have h0 : ¬pts.length = 0 := by omega
    have h1 : ¬pts.length = 1 := by omega
    have hpath : generatePath pts gaps ls
        = (List.range (sortByOriginalX pts).length).map (fun i =>
          let point := (sortByOriginalX pts).getD i default
          if i = 0 then .move point.x point.y
          else if (gapIndicesOf (sortByOriginalX pts) gaps).contains (i - 1)
          then .move point.x point.y
          else .line point.x point.y) := by
      simp only [generatePath, if_neg h0, if_neg h1, hsm, if_pos rfl]
      simp
    refine ⟨?_, ?_, ?_, ?_⟩
    · rw [hpath, getD_range_map _ _ _ (by omega)]
      simp
    · intro i hi1 hin
      rw [hpath, getD_range_map _ _ _ (by omega)]
      have hne0 : ¬i = 0 := by omega
      simp only [hne0, if_false]
    · rw [hpath]
      simp [hsl]
    · rw [hpath, List.any_eq_false]
      intro c hc
      rcases List.mem_map.mp hc with ⟨i, -, rfl⟩
      by_cases hi0 : i = 0
      · simp [hi0, PathCmd.isCurve]
      · by_cases hgap : (gapIndicesOf (sortByOriginalX pts) gaps).contains
            (i - 1)
        · simp only [hgap]
          simp [hi0, PathCmd.isCurve]
        · simp only [Bool.not_eq_true] at hgap
          simp only [hgap]
          simp [hi0, PathCmd.isCurve]

/-- Witness for C7 on six points with a detected gap between indices 2 and 3. -/
theorem generatePath_spec_witness :
    generatePath [] none none = []
    ∧ (generatePath [⟨0, 50, 0, 5, 0⟩] none none).any PathCmd.isMove = true
    ∧ (generatePath [⟨0, 50, 0, 5, 0⟩] none none).any PathCmd.isArc = true
    ∧ (generatePath [⟨0, 50, 0, 5, 0⟩] none none).any PathCmd.isLine = false
    ∧ (generatePath [⟨0, 50, 0, 5, 0⟩, ⟨1, 51, 1, 6, 1⟩, ⟨2, 52, 2, 7, 2⟩,
        ⟨10, 53, 10, 8, 3⟩, ⟨11, 54, 11, 9, 4⟩, ⟨12, 55, 12, 10, 5⟩]
        (some ⟨true, none, false, none⟩) none).getD 0 .close
      = .move 0 50
    ∧ (generatePath [⟨0, 50, 0, 5, 0⟩, ⟨1, 51, 1, 6, 1⟩, ⟨2, 52, 2, 7, 2⟩,
        ⟨10, 53, 10, 8, 3⟩, ⟨11, 54, 11, 9, 4⟩, ⟨12, 55, 12, 10, 5⟩]
        (some ⟨true, none, false, none⟩) none).getD 1 .close
      = .line 1 51
    ∧ (generatePath [⟨0, 50, 0, 5, 0⟩, ⟨1, 51, 1, 6, 1⟩, ⟨2, 52, 2, 7, 2⟩,
        ⟨10, 53, 10, 8, 3⟩, ⟨11, 54, 11, 9, 4⟩, ⟨12, 55, 12, 10, 5⟩]
        (some ⟨true, none, false, none⟩) none).getD 3 .close
      = .move 10 53
    ∧ (generatePath [⟨0, 50, 0, 5, 0⟩, ⟨1, 51, 1, 6, 1⟩, ⟨2, 52, 2, 7, 2⟩,
        ⟨10, 53, 10, 8, 3⟩, ⟨11, 54, 11, 9, 4⟩, ⟨12, 55, 12, 10, 5⟩]
        (some ⟨true, none, false, none⟩) none).any PathCmd.isCurve
      = false := by
  have hmain := generatePath_spec.2.2
    [⟨0, 50, 0, 5, 0⟩, ⟨1, 51, 1, 6, 1⟩, ⟨2, 52, 2, 7, 2⟩,
      ⟨10, 53, 10, 8, 3⟩, ⟨11, 54, 11, 9, 4⟩, ⟨12, 55, 12, 10, 5⟩]
    (some ⟨true, none, false, none⟩) none (by norm_num) rfl
  have hsorted : sortByOriginalX [⟨0, 50, 0, 5, 0⟩, ⟨1, 51, 1, 6, 1⟩,
      ⟨2, 52, 2, 7, 2⟩, ⟨10, 53, 10, 8, 3⟩, ⟨11, 54, 11, 9, 4⟩,
      ⟨12, 55, 12, 10, 5⟩]
      = [⟨0, 50, 0, 5, 0⟩, ⟨1, 51, 1, 6, 1⟩, ⟨2, 52, 2, 7, 2⟩,
        ⟨10, 53, 10, 8, 3⟩, ⟨11, 54, 11, 9, 4⟩, ⟨12, 55, 12, 10, 5⟩] := by
    norm_num [sortByOriginalX, List.insertionSort, List.orderedInsert]
  have hgi : gapIndicesOf [⟨0, 50, 0, 5, 0⟩, ⟨1, 51, 1, 6, 1⟩,
      ⟨2, 52, 2, 7, 2⟩, ⟨10, 53, 10, 8, 3⟩, ⟨11, 54, 11, 9, 4⟩,
      ⟨12, 55, 12, 10, 5⟩] (some ⟨true, none, false, none⟩) = [2] := by
    norm_num [gapIndicesOf, resolvedThreshold, DEFAULT_GAP_THRESHOLD,
      detectGaps, detectGapsAux, calculateExpectedInterval, intervalsOf,
      List.insertionSort, List.orderedInsert]
  refine ⟨generatePath_spec.1 none none,
    (generatePath_spec.2.1 ⟨0, 50, 0, 5, 0⟩ none none).1,
    (generatePath_spec.2.1 ⟨0, 50, 0, 5, 0⟩ none none).2.1,
    (generatePath_spec.2.1 ⟨0, 50, 0, 5, 0⟩ none none).2.2, ?_, ?_, ?_, ?_⟩
  · rw [hmain.1, hsorted]
    norm_num
  · rw [hmain.2.1 1 (by norm_num) (by norm_num), hsorted, hgi]
    norm_num
  · rw [hmain.2.1 3 (by norm_num) (by norm_num), hsorted, hgi]
    norm_num
  · exact hmain.2.2.2

/-! ## Chart dimensions (src/unnamed/part_004, `useChartDimensions`) -/

/-- Optional per-side padding overrides (`Padding`). -/
structure PaddingCfg where
  top : Option ℚ
  right : Option ℚ
  bottom : Option ℚ
  left : Option ℚ
deriving Repr, DecidableEq

/-- A fully resolved padding record (`Required<Padding>`). -/
structure ResolvedPadding where
  top : ℚ
  right : ℚ
  bottom : ℚ
  left : ℚ
deriving Repr, DecidableEq

/-- `DEFAULT_STYLES.padding` (src/src/utils/types.ts). -/
def defaultStylesPadding : ResolvedPadding := ⟨20, 20, 40, 60⟩

/-- One axis entry of `AxisConfig`; `showFlag` models its `show` field
(`show` is a Lean keyword). -/
structure AxisSideCfg where
  showFlag : Option Bool
deriving Repr, DecidableEq

/-- `AxisConfig` with optional x and y entries. -/
structure AxisCfg where
  x : Option AxisSideCfg
  y : Option AxisSideCfg
deriving Repr, DecidableEq

/-- `calculateDynamicPadding`: fixed top/right from the default style record,
left 60 when the y axis is shown else 20, bottom 40 when the x axis is shown
else 20. -/
def calculateDynamicPadding (axes : Option AxisCfg) : ResolvedPadding :=
  { top := defaultStylesPadding.top
    right := defaultStylesPadding.right
    bottom := if (((axes.bind fun a => a.x).bind fun s => s.showFlag).getD
      false) then 40 else 20
    left := if (((axes.bind fun a => a.y).bind fun s => s.showFlag).getD
      false) then 60 else 20 }

/-- `useChartDimensions`: merge explicit padding over the dynamic defaults
per side, subtract from the canvas, and warn (boolean flag) when the naive
width or height is not positive.  The code does NOT clamp the result. -/
def useChartDimensions (width height : ℚ) (padding : Option PaddingCfg)
    (axes : Option AxisCfg) : Rect × ResolvedPadding × Bool :=
  let dynamicPadding := calculateDynamicPadding axes
  let resolvedPadding : ResolvedPadding :=
    { top := ((padding.bind fun p => p.top).getD dynamicPadding.top)
      right := ((padding.bind fun p => p.right).getD dynamicPadding.right)
      bottom := ((padding.bind fun p => p.bottom).getD dynamicPadding.bottom)
      left := ((padding.bind fun p => p.left).getD dynamicPadding.left) }
  let chartArea : Rect :=
    { x := resolvedPadding.left
      y := resolvedPadding.top
      width := width - resolvedPadding.left - resolvedPadding.right
      height := height - resolvedPadding.top - resolvedPadding.bottom }
  let warned := decide (chartArea.width ≤ 0) || decide (chartArea.height ≤ 0)
  (chartArea, resolvedPadding, warned)

/-- C8 is a code bug: for canvas `0 × 0` with no explicit padding and no axes,
the resolver returns a drawable rectangle of width and height `-40` — it only
emits the warning and never floor-clamps to 1, contradicting the claim and the
repository's own tests (`useChartDimensions.test.ts`: "ensures chart area is
never negative", "handles zero dimensions gracefully"). -/
theorem useChartDimensions_no_clamp :
    (useChartDimensions 0 0 none none).1 = ⟨20, 20, -40, -40⟩
    ∧ ¬(1 ≤ (useChartDimensions 0 0 none none).1.width)
    ∧ ¬(1 ≤ (useChartDimensions 0 0 none none).1.height)
    ∧ (useChartDimensions 0 0 none none).2.2 = true := by
  refine ⟨?_, ?_, ?_, ?_⟩ <;>
    norm_num [useChartDimensions, calculateDynamicPadding,
      defaultStylesPadding]

/-! ## Input validation (`validateData` in src/src/utils/types.ts companion
validation module) -/

/-- One entry of a data array as JS sees it: a finite number, `NaN`, an
infinity, `null`/`undefined`, or a non-numeric value. -/
inductive Entry where
  | num (v : ℚ)
  | nan
  | inf
  | null
  | other
deriving Repr, DecidableEq

/-- A `data.x` / `data.y` field: absent (or otherwise falsy), a truthy
non-array value, or an actual array. -/
inductive Field where
  | missing
  | notArray
  | arr (l : List Entry)
deriving Repr, DecidableEq

/-- Result of `validateData`: the thrown error message if any, plus the
`console.warn` messages emitted before the throw (or all of them). -/
structure ValidationResult where
  error : Option String
  warnings : List String
deriving Repr, DecidableEq

/-- Whether an entry passes `isFinite` after the null and type checks. -/
def Entry.isFiniteNum : Entry → Bool
  | .num _ => true
  | _ => false

/-- The numeric value of an entry (entries reaching the range checks are all
finite numbers). -/
def Entry.val : Entry → ℚ
  | .num v => v
  | _ => 0

/-- The per-index checks of the entry loop, in source order: null/undefined,
then non-number, then non-finite; the message names the offending index. -/
def entryMsgAt (x y : Entry) (i : ℕ) : Option String :=
  if x = .null ∨ y = .null then
    some ("Data point at index " ++ toString i
      ++ " contains null or undefined values")
  else if x = .other ∨ y = .other then
    some ("Data point at index " ++ toString i
      ++ " contains non-numeric values")
  else if ¬(x.isFiniteNum ∧ y.isFiniteNum) then
    some ("Data point at index " ++ toString i
      ++ " contains invalid values (NaN or Infinity)")
  else none

/-- The entry loop: first failing index wins. -/
def firstBad : List Entry → List Entry → ℕ → Option String
  | x :: xs, y :: ys, i =>
    match entryMsgAt x y i with
    | some m => some m
    | none => firstBad xs ys (i + 1)
  | _, _, _ => none

/-- The performance warning text. -/
def perfWarn (n : ℕ) : String :=
  "Chart has " ++ toString n
    ++ " data points. Performance may be affected above "
    ++ toString MAX_DATA_POINTS ++ " points."

/-- The identical-x advisory text. -/
def identXWarn : String :=
  "All X values are identical. Chart may not display properly."

/-- The identical-y advisory text. -/
def identYWarn : String :=
  "All Y values are identical. Chart will display as a flat line."

/-- The part of `validateData` after the shape guards: the performance
warning, the entry loop, and the identical-range advisories. -/
def validateDataEntryPhase (xs ys : List Entry) : ValidationResult :=
  let warns1 := if MAX_DATA_POINTS < xs.length
    then [perfWarn xs.length] else []
  match firstBad xs ys 0 with
  | some m => ⟨some m, warns1⟩
  | none =>
    let xvals := xs.map Entry.val
    let yvals := ys.map Entry.val
    let warns2 := if listMax xvals - listMin xvals = 0
        ∧ 1 < xs.length then [identXWarn] else []
    let warns3 := if listMax yvals - listMin yvals = 0
        ∧ 1 < ys.length then [identYWarn] else []
    ⟨none, warns1 ++ warns2 ++ warns3⟩

/-- `validateData`: hard precondition checks throw (error message), advisory
checks only warn, in source order. -/
def validateData : Option (Field × Field) → ValidationResult
  | none => ⟨some "Chart data is required", []⟩
  | some (fx, fy) =>
    if fx = .missing ∨ fy = .missing then
      ⟨some "Chart requires both x and y data arrays", []⟩
    else
      match fx, fy with
      | .arr xs, .arr ys =>
        if xs.length ≠ ys.length then
          ⟨some ("X and Y arrays must have the same length. Got x: "
            ++ toString xs.length ++ ", y: " ++ toString ys.length), []⟩
        else if xs.length = 0 then
          ⟨some "Chart requires at least one data point", []⟩
        else validateDataEntryPhase xs ys
      | _, _ => ⟨some "X and Y data must be arrays", []⟩

/-- An entry violating the hard per-entry preconditions: null/undefined,
non-numeric, or NaN/Infinity. -/
def isBadEntry : Entry → Bool
  | .num _ => false
  | _ => true

/-- The claim's enumeration of hard preconditions, stated independently of
the check order: missing data object, missing or non-array x or y, mismatched
lengths, zero points, or any bad entry. -/
def hardViolation : Option (Field × Field) → Bool
  | none => true
  | some (.arr xs, .arr ys) =>
    decide (xs.length ≠ ys.length) || decide (xs.length = 0)
      || (xs ++ ys).any isBadEntry
  | some _ => true

theorem entryMsgAt_isSome (x y : Entry) (i : ℕ) :
    (entryMsgAt x y i).isSome = (isBadEntry x || isBadEntry y) := by
  cases x <;> cases y <;>
    simp [entryMsgAt, isBadEntry, Entry.isFiniteNum]

theorem firstBad_isSome :
    ∀ (xs ys : List Entry) (i : ℕ), xs.length = ys.length →
      (firstBad xs ys i).isSome = (xs.any isBadEntry || ys.any isBadEntry) := by
  intro xs
  induction xs with
  | nil =>
    intro ys i hlen
    cases ys with
    | nil => simp [firstBad]
    | cons y ys => simp at hlen
  | cons x xs ih =>
    intro ys i hlen
    cases ys with
    | nil => simp at hlen
    | cons y ys =>
      have hlen' : xs.length = ys.length := by simpa using hlen
      show (match entryMsgAt x y i with
        | some m => some m
        | none => firstBad xs ys (i + 1)).isSome = _
      rcases hm : entryMsgAt x y i with - | m
      · have hbad : (isBadEntry x || isBadEntry y) = false := by
          rw [← entryMsgAt_isSome x y i, hm]
          rfl
        simp only [Bool.or_eq_false_iff] at hbad
        simp [ih ys (i + 1) hlen', hbad.1, hbad.2]
      · have hbad : (isBadEntry x || isBadEntry y) = true := by
          rw [← entryMsgAt_isSome x y i, hm]
          rfl
        rcases Bool.or_eq_true_iff.mp hbad with h | h <;>
          simp [h]

theorem firstBad_of_min :
    ∀ (xs ys : List Entry) (b i : ℕ), xs.length = ys.length →
      i < xs.length →
      (isBadEntry (xs.getD i .null) || isBadEntry (ys.getD i .null)) = true →
      (∀ j < i,
        (isBadEntry (xs.getD j .null) || isBadEntry (ys.getD j .null)) = false) →
      firstBad xs ys b = entryMsgAt (xs.getD i .null) (ys.getD i .null) (b + i) := by
  intro xs
  induction xs with
  | nil => intro ys b i _ hi; simp at hi
  | cons x xs ih =>
    intro ys b i hlen hi hbad hmin
    cases ys with
    | nil => simp at hlen
    | cons y ys =>
      have hlen' : xs.length = ys.length := by simpa using hlen
      cases i with
      | zero =>
        simp only [List.getD_cons_zero] at hbad
        have hsome : (entryMsgAt x y b).isSome = true := by
          rw [entryMsgAt_isSome]; exact hbad
        rcases hm : entryMsgAt x y b with - | m
        · rw [hm] at hsome; simp at hsome
        · show (match entryMsgAt x y b with
            | some m => some m
            | none => firstBad xs ys (b + 1)) = _
          rw [hm]
          simp [hm]
      | succ k =>
        have hgood0 : (isBadEntry x || isBadEntry y) = false := by
          have := hmin 0 (Nat.succ_pos k)
          simpa using this
        have hnone : entryMsgAt x y b = none := by
          have : (entryMsgAt x y b).isSome = false := by
            rw [entryMsgAt_isSome]; exact hgood0
          exact Option.not_isSome_iff_eq_none.mp (by simp [this])
        show (match entryMsgAt x y b with
          | some m => some m
          | none => firstBad xs ys (b + 1)) = _
        rw [hnone]
        have hk : k < xs.length := by simpa using hi
        have hbad' :
            (isBadEntry (xs.getD k .null) || isBadEntry (ys.getD k .null)) = true := by
          simpa using hbad
        have hmin' : ∀ j < k,
            (isBadEntry (xs.getD j .null) || isBadEntry (ys.getD j .null)) = false := by
          intro j hj
          have := hmin (j + 1) (Nat.succ_lt_succ hj)
          simpa using this
        rw [ih ys (b + 1) k hlen' hk hbad' hmin']
        simp only [List.getD_cons_succ]
        congr 1
        omega

theorem entryMsgAt_bad (x y : Entry) (i : ℕ)
    (h : (isBadEntry x || isBadEntry y) = true) :
    ∃ s, s ∈ [" contains null or undefined values",
        " contains non-numeric values",
        " contains invalid values (NaN or Infinity)"] ∧
      entryMsgAt x y i = some ("Data point at index " ++ toString i ++ s) := by
  unfold entryMsgAt
  split_ifs with h1 h2 h3
  · exact ⟨" contains null or undefined values", by simp, rfl⟩
  · exact ⟨" contains non-numeric values", by simp, rfl⟩
  · exfalso
    cases x <;> cases y <;>
      simp_all [isBadEntry, Entry.isFiniteNum]
  · exact ⟨" contains invalid values (NaN or Infinity)", by simp, rfl⟩

theorem validateData_arr (xs ys : List Entry) (hlen : xs.length = ys.length)
    (hne : xs.length ≠ 0) :
    validateData (some (.arr xs, .arr ys)) = validateDataEntryPhase xs ys := by
  have hne' : ys ≠ [] := by
    intro h
    subst h
    simp at hlen
    exact hne (by simp [hlen])
  simp [validateData, hlen, hne, hne']

theorem entryPhase_error (xs ys : List Entry) :
    (validateDataEntryPhase xs ys).error = firstBad xs ys 0 := by
  unfold validateDataEntryPhase
  rcases h : firstBad xs ys 0 with - | m <;> simp [h]

/-- C9: `validateData` throws exactly on the hard preconditions — missing
data object, missing or non-array `x` or `y`, mismatched lengths, zero
points, or a null/undefined, non-numeric or NaN/Infinity entry — (first
conjunct, an equivalence for every input); for the least bad index the error
message names that index (second conjunct); and on otherwise valid data the
advisory conditions (identical x values, identical y values, point count
above the maximum) only add warnings and never set an error (third
conjunct). -/
theorem validateData_spec :
    (∀ d, (validateData d).error.isSome = hardViolation d)
    ∧ (∀ (xs ys : List Entry) (i : ℕ), xs.length = ys.length →
        i < xs.length →
        (isBadEntry (xs.getD i .null) || isBadEntry (ys.getD i .null)) = true →
        (∀ j < i,
          (isBadEntry (xs.getD j .null) || isBadEntry (ys.getD j .null))
            = false) →
        ∃ s, s ∈ [" contains null or undefined values",
            " contains non-numeric values",
            " contains invalid values (NaN or Infinity)"] ∧
          (validateData (some (.arr xs, .arr ys))).error
            = some ("Data point at index " ++ toString i ++ s))
    ∧ (∀ (xs ys : List Entry), xs.length = ys.length → xs.length ≠ 0 →
        (xs ++ ys).any isBadEntry = false →
        (validateData (some (.arr xs, .arr ys))).error = none
        ∧ (listMax (xs.map Entry.val) - listMin (xs.map Entry.val) = 0
              ∧ 1 < xs.length →
            identXWarn ∈ (validateData (some (.arr xs, .arr ys))).warnings)
        ∧ (listMax (ys.map Entry.val) - listMin (ys.map Entry.val) = 0
              ∧ 1 < ys.length →
            identYWarn ∈ (validateData (some (.arr xs, .arr ys))).warnings)
        ∧ (MAX_DATA_POINTS < xs.length →
            perfWarn xs.length
              ∈ (validateData (some (.arr xs, .arr ys))).warnings)) := by
  refine ⟨?_, ?_, ?_⟩
  · intro d
    cases d with
    | none => rfl
    | some p =>
      obtain ⟨fx, fy⟩ := p
      cases fx with
      | missing => simp [validateData, hardViolation]
      | notArray => cases fy <;> simp [validateData, hardViolation]
      | arr xs =>
        cases fy with
        | missing => simp [validateData, hardViolation]
        | notArray => simp [validateData, hardViolation]
        | arr ys =>
          by_cases hlen : xs.length = ys.length
          · by_cases hzero : xs.length = 0
            · have hy : ys.length = 0 := hlen ▸ hzero
              simp [validateData, hardViolation, hlen, hzero, hy]
            · rw [validateData_arr xs ys hlen hzero]
              have h1 : (validateDataEntryPhase xs ys).error.isSome
                  = (firstBad xs ys 0).isSome := by
                rw [entryPhase_error]
              rw [h1, firstBad_isSome xs ys 0 hlen]
              have hys : ys ≠ [] := by
                intro h
                subst h
                simp at hlen
                exact hzero (by simp [hlen])
              simp [hardViolation, hlen, hzero, hys, List.any_append]
          · simp [validateData, hardViolation, hlen]
  · intro xs ys i hlen hi hbad hmin
    have hne : xs.length ≠ 0 := by omega
    rw [validateData_arr xs ys hlen hne, entryPhase_error]
    rw [firstBad_of_min xs ys 0 i hlen hi hbad hmin]
    simp only [Nat.zero_add]
    exact entryMsgAt_bad (xs.getD i .null) (ys.getD i .null) i hbad
  · intro xs ys hlen hne hgood
    rw [List.any_append, Bool.or_eq_false_iff] at hgood
    have hfb : firstBad xs ys 0 = none := by
      have h := firstBad_isSome xs ys 0 hlen
      rw [hgood.1, hgood.2] at h
      cases hfb2 : firstBad xs ys 0 with
      | none => rfl
      | some m => rw [hfb2] at h; simp at h
    rw [validateData_arr xs ys hlen hne]
    refine ⟨?_, ?_, ?_, ?_⟩
    · simp [validateDataEntryPhase, hfb]
    · intro hcond
      simp [validateDataEntryPhase, hfb, hcond.1, hcond.2]
    · intro hcond
      simp [validateDataEntryPhase, hfb, hcond.1, hcond.2]
    · intro hb
      simp [validateDataEntryPhase, hfb, hb]

theorem validateData_spec_witness :
    (validateData none).error.isSome = hardViolation none
    ∧ (∃ s, s ∈ [" contains null or undefined values",
        " contains non-numeric values",
        " contains invalid values (NaN or Infinity)"] ∧
        (validateData (some (.arr [.num 1, .nan], .arr [.num 2, .num 3]))).error
          = some ("Data point at index " ++ toString 1 ++ s))
    ∧ (validateData (some (.arr [.num 1, .num 2],
        .arr [.num 3, .num 4]))).error = none
    ∧ identXWarn ∈ (validateData (some (.arr [.num 1, .num 1],
        .arr [.num 2, .num 2]))).warnings
    ∧ identYWarn ∈ (validateData (some (.arr [.num 1, .num 1],
        .arr [.num 2, .num 2]))).warnings
    ∧ perfWarn 51 ∈ (validateData (some (.arr (List.replicate 51 (.num 1)),
        .arr (List.replicate 51 (.num 2))))).warnings := by
  have h2 := validateData_spec.2.2 [.num 1, .num 1] [.num 2, .num 2]
    rfl (by decide) (by decide)
  have h51 := validateData_spec.2.2 (List.replicate 51 (.num 1))
    (List.replicate 51 (.num 2)) (by simp) (by simp) (by decide)
  refine ⟨validateData_spec.1 none,
    validateData_spec.2.1 [.num 1, .nan] [.num 2, .num 3] 1
      rfl (by decide) (by decide) (by decide),
    (validateData_spec.2.2 [.num 1, .num 2] [.num 3, .num 4]
      rfl (by decide) (by decide)).1,
    h2.2.1 ⟨by norm_num [listMax, listMin, Entry.val], by norm_num⟩,
    h2.2.2.1 ⟨by norm_num [listMax, listMin, Entry.val], by norm_num⟩,
    ?_⟩
  have := h51.2.2.2 (by decide)
  simpa using this

end Charts
